import Mathlib

/-! # Cartesian3D (mathcore/GenVector) and RooPlotable (roofitcore)

A shallow embedding of `Math/GenVector/Cartesian3D.h` and of `RooPlotable.h`.  The C++ class is a
template over its scalar type `T`; the embedding is generic over a type `S`
carrying the operations the header applies to a `T` (the class `Scalar`).
The member functions are translated one by one, generically, and are
executable for any executable `Scalar` instance.

The properties are proved for the exact-arithmetic reading of a floating
scalar type: `S = ℝ` with the `<cmath>` functions interpreted by their
mathematical counterparts (`realScalar`).  An integer scalar type is `intScalar`, and
`double` with its rounding is `binary64Scalar`.
-/

namespace GenVector

/-! ## The scalar type -/

/-- What `Cartesian3D<T>` uses of its template parameter `T`: the arithmetic
operators, the comparisons `==`, `<`, `>`, the conversion `static_cast<T>` of a
decimal literal, the `<cmath>` functions called by the accessors, and the two
per-type constants `std::numeric_limits<T>::epsilon()` and `etaMax<T>()`
(the latter comes from `Math/GenVector/etaMax.h`, which is outside the
excerpt, and is therefore a parameter of the model). -/
class Scalar (S : Type) extends Zero S, One S, Add S, Sub S, Mul S, Div S, Neg S, LT S where
  /-- Decides `a == b`. -/
  decEq : DecidableEq S
  /-- Decides `a < b`. -/
  decLt : ∀ a b : S, Decidable (a < b)
  /-- Conversion `static_cast<T>(q)` of a decimal literal. -/
  cast : ℚ → S
  /-- The function `std::sqrt`. -/
  sqrt : S → S
  /-- The function `std::log`. -/
  log : S → S
  /-- The function `std::pow`. -/
  pow : S → S → S
  /-- The function `fabs`. -/
  fabs : S → S
  /-- The function `atan2`, argument order `(y, x)` as in C. -/
  atan2 : S → S → S
  /-- The function `std::cos`. -/
  cos : S → S
  /-- The function `std::sin`. -/
  sin : S → S
  /-- The constant `std::numeric_limits<T>::epsilon()`. -/
  epsilon : S
  /-- The constant `etaMax<T>()`. -/
  etaMax : S

instance instDecidableEqScalar {S : Type} [Scalar S] : DecidableEq S := Scalar.decEq

instance instDecidableLtScalar {S : Type} [Scalar S] (a b : S) : Decidable (a < b) :=
  Scalar.decLt a b

/-! ## The class `Cartesian3D<T>` -/

/-- The data members `fX`, `fY`, `fZ` of `Cartesian3D<T>`. -/
structure Cartesian3D (S : Type) where
  /-- The x coordinate. -/
  fX : S
  /-- The y coordinate. -/
  fY : S
  /-- The z coordinate. -/
  fZ : S

namespace Cartesian3D

variable {S : Type} [Scalar S]

open Scalar

/-- Member `X()`. -/
def X (v : Cartesian3D S) : S := v.fX

/-- Member `Y()`. -/
def Y (v : Cartesian3D S) : S := v.fY

/-- Member `Z()`. -/
def Z (v : Cartesian3D S) : S := v.fZ

/-- Member `Mag2()`: `fX*fX + fY*fY + fZ*fZ`. -/
def Mag2 (v : Cartesian3D S) : S := v.fX * v.fX + v.fY * v.fY + v.fZ * v.fZ

/-- Member `Perp2()`: `fX*fX + fY*fY`. -/
def Perp2 (v : Cartesian3D S) : S := v.fX * v.fX + v.fY * v.fY

/-- Member `Rho()`: `std::sqrt(Perp2())`. -/
def Rho (v : Cartesian3D S) : S := sqrt v.Perp2

/-- Member `R()`: `std::sqrt(Mag2())`. -/
def R (v : Cartesian3D S) : S := sqrt v.Mag2

/-- Member `Theta()`: `(fX==0 && fY==0 && fZ==0) ? 0.0 : atan2(Rho(),Z())`. -/
def Theta (v : Cartesian3D S) : S :=
  if v.fX = 0 ∧ v.fY = 0 ∧ v.fZ = 0 then 0 else atan2 v.Rho v.Z

/-- Member `Phi()`: `(fX==0 && fY==0) ? 0.0 : atan2(fY,fX)`. -/
def Phi (v : Cartesian3D S) : S :=
  if v.fX = 0 ∧ v.fY = 0 then 0 else atan2 v.fY v.fX

/-- Member `Eta()`, the pseudorapidity.  The exponent is `static_cast<Scalar>(-.6)`;
the literals `2.0` and `-2.0` of the asymptotic branch are read in the scalar type. -/
def Eta (v : Cartesian3D S) : S :=
  let rho : S := v.Rho
  let big_z_scaled : S := pow epsilon (cast (-0.6))
  if rho > 0 then
    let z_scaled : S := v.fZ / rho
    if fabs z_scaled < big_z_scaled then
      log (z_scaled + sqrt (z_scaled * z_scaled + 1))
    else
      if v.fZ > 0 then log (cast 2.0 * z_scaled) else -log (-cast 2.0 * z_scaled)
  else if v.fZ = 0 then
    0
  else if v.fZ > 0 then
    v.fZ + etaMax
  else
    v.fZ - etaMax

end Cartesian3D

/-! ### Conversions from other coordinate systems -/

/-- The accessors `X()`, `Y()`, `Z()` of a source type `P`: what the generic
constructor `template <class CoordSystem> Cartesian3D(const CoordSystem & v)`
requires of its argument. -/
structure CoordSystem (P S : Type) where
  /-- Accessor `X()`. -/
  X : P → S
  /-- Accessor `Y()`. -/
  Y : P → S
  /-- Accessor `Z()`. -/
  Z : P → S

/-- The const accessors of `Polar3D<T2>` that `Cartesian3D.h` reads.  The class
`Polar3D` is only forward-declared in the excerpt (`Polar3Dfwd.h`), so its
accessors are a parameter: `X()`, `Y()`, `Z()` as for every coordinate system,
and `Rho()`, `Phi()`. -/
structure Polar3DAccessors (P S : Type) extends CoordSystem P S where
  /-- Accessor `Rho()`. -/
  Rho : P → S
  /-- Accessor `Phi()`. -/
  Phi : P → S

/-- The implicit conversions from the scalar type `T2` of a source to the scalar type `T`
of the target.  `conv` converts a value (as in `T rho = v.Rho()` and `fZ(v.Z())`);
`mul a b` is the product `a * b` of a `T` and a `T2`, which is evaluated in the common
type of the two and converted to `T` when it is assigned to a data member. -/
structure ScalarConversion (S2 S : Type) where
  /-- Conversion of a `T2` value to `T`. -/
  conv : S2 → S
  /-- The product of a `T` and a `T2`, converted to `T`. -/
  mul : S → S2 → S

/-- The conversions when source and target have the same scalar type (`T2 = T`): a value
is unchanged and the product is the product of `T`. -/
def ScalarConversion.same {S : Type} [Scalar S] : ScalarConversion S S :=
  { conv := fun a => a, mul := fun a b => a * b }

namespace Cartesian3D

variable {S : Type} [Scalar S]

open Scalar

/-- Constructor `Cartesian3D(const CoordSystem & v) : fX(v.X()), fY(v.Y()), fZ(v.Z())`:
each accessor value of the source, of scalar type `S2`, is converted to `S`. -/
def ofCoordSystem {P S2 : Type} (k : ScalarConversion S2 S) (c : CoordSystem P S2) (v : P) :
    Cartesian3D S :=
  { fX := k.conv (c.X v), fY := k.conv (c.Y v), fZ := k.conv (c.Z v) }

/-- Constructor `template <class T2> Cartesian3D(const Polar3D<T2> & v) : fZ(v.Z())`,
whose body is `T rho = v.Rho(); fX = rho * std::cos(v.Phi()); fY = rho * std::sin(v.Phi());`.
The source has scalar type `S2` (the parameter `T2`): `rho` is `v.Rho()` converted to `S`,
the cosine and sine are taken in `S2` (as `std::cos` and `std::sin` do for a floating
`T2`), and each product of an `S` and an `S2` is converted to `S` when it is assigned. -/
def ofPolar3D {P S2 : Type} [Scalar S2] (k : ScalarConversion S2 S)
    (p : Polar3DAccessors P S2) (v : P) : Cartesian3D S :=
  let rho : S := k.conv (p.Rho v)
  { fZ := k.conv (p.Z v), fX := k.mul rho (cos (p.Phi v)), fY := k.mul rho (sin (p.Phi v)) }

/-- The call `std::sqrt(x)`, defined for `x` not below zero. -/
def sqrtChecked (x : S) : Option S := if x < 0 then none else some (sqrt x)

/-- The call `std::log(x)`, defined for `x` strictly positive. -/
def logChecked (x : S) : Option S := if 0 < x then some (log x) else none

/-- The quotient `a / b`, defined for `b` strictly positive. -/
def divChecked (a b : S) : Option S := if 0 < b then some (a / b) else none

/-- Member `Rho()` with the argument of `std::sqrt` checked. -/
def RhoChecked (v : Cartesian3D S) : Option S := sqrtChecked v.Perp2

/-- Member `R()` with the argument of `std::sqrt` checked. -/
def RChecked (v : Cartesian3D S) : Option S := sqrtChecked v.Mag2

/-- Member `Eta()` with the arguments of `std::sqrt`, `std::log` and `/` checked. -/
def EtaChecked (v : Cartesian3D S) : Option S := do
  let rho ← v.RhoChecked
  let big_z_scaled : S := pow epsilon (cast (-0.6))
  if rho > 0 then
    let z_scaled ← divChecked v.fZ rho
    if fabs z_scaled < big_z_scaled then
      let s ← sqrtChecked (z_scaled * z_scaled + 1)
      logChecked (z_scaled + s)
    else
      if v.fZ > 0 then logChecked (cast 2.0 * z_scaled)
      else do
        let l ← logChecked (-cast 2.0 * z_scaled)
        pure (-l)
  else if v.fZ = 0 then
    pure 0
  else if v.fZ > 0 then
    pure (v.fZ + etaMax)
  else
    pure (v.fZ - etaMax)

end Cartesian3D

/-! ## Exact real arithmetic as a scalar type -/

/-- The reals as a scalar type: every operation is the mathematical one.
`atan2 y x` is the argument of `x + y i`, with values in `(-π, π]` and
`atan2 0 0 = 0`.  The machine epsilon and the saturation constant are
parameters. -/
noncomputable def realScalar (eps etaMax : ℝ) : Scalar ℝ where
  zero := 0
  one := 1
  add := fun a b => a + b
  sub := fun a b => a - b
  mul := fun a b => a * b
  div := fun a b => a / b
  neg := fun a => -a
  lt := fun a b => a < b
  decEq := inferInstance
  decLt := fun a b => inferInstanceAs (Decidable (a < b))
  cast := fun q => (q : ℝ)
  sqrt := Real.sqrt
  log := Real.log
  pow := fun a b => a ^ b
  fabs := fun a => |a|
  atan2 := fun y x => Complex.arg ⟨x, y⟩
  cos := Real.cos
  sin := Real.sin
  epsilon := eps
  etaMax := etaMax

/-! ## The integers as a scalar type -/

/-- Conversion of a real value to an integer type: the fractional part is discarded
(truncation toward zero). -/
noncomputable def truncReal (x : ℝ) : ℤ := if 0 ≤ x then ⌊x⌋ else ⌈x⌉

/-- Conversion `static_cast<int>(q)` of a decimal literal: truncation toward zero. -/
def truncRat (q : ℚ) : ℤ := if 0 ≤ q then ⌊q⌋ else ⌈q⌉

/-- An integer type as a scalar type (overflow is not modelled).  The quotient of two
integers truncates toward zero; `std::numeric_limits<T>::epsilon()` is `0` for an
integer type; a `<cmath>` function is applied to the arguments converted to `double`
and its result is converted back when it is stored in a `Scalar`, here with exact
real arithmetic in between.  The saturation constant is a parameter. -/
noncomputable def intScalar (etaMax : ℤ) : Scalar ℤ where
  zero := 0
  one := 1
  add := fun a b => a + b
  sub := fun a b => a - b
  mul := fun a b => a * b
  div := fun a b => Int.tdiv a b
  neg := fun a => -a
  lt := fun a b => a < b
  decEq := inferInstance
  decLt := fun a b => inferInstanceAs (Decidable (a < b))
  cast := truncRat
  sqrt := fun a => truncReal (Real.sqrt a)
  log := fun a => truncReal (Real.log a)
  pow := fun a b => truncReal ((a : ℝ) ^ (b : ℝ))
  fabs := fun a => |a|
  atan2 := fun y x => truncReal (Complex.arg ⟨x, y⟩)
  cos := fun a => truncReal (Real.cos a)
  sin := fun a => truncReal (Real.sin a)
  epsilon := 0
  etaMax := etaMax

/-- The threshold of `Eta()` as the specification documents it, `eps^(-0.6)` for the
machine epsilon `eps` of the scalar type: a positive real for `eps > 0`, and `+∞` for
`eps = 0`. -/
noncomputable def documentedThreshold (eps : ℝ) : EReal :=
  if eps = 0 then ⊤ else ((eps ^ (-0.6 : ℝ) : ℝ) : EReal)

/-- Rounding of a real to the nearest integer, ties to the even one. -/
noncomputable def roundHalfEven (r : ℝ) : ℤ :=
  if r - ⌊r⌋ < 1 / 2 then ⌊r⌋
  else if 1 / 2 < r - ⌊r⌋ then ⌊r⌋ + 1
  else if Even ⌊r⌋ then ⌊r⌋ else ⌊r⌋ + 1

/-- Rounding of a real to the nearest value with a 53-bit significand, ties to even: the
rounding of IEEE 754 binary64 in its default mode, with the exponent range not bounded
(no overflow, no underflow).  For `x` with `2^e <= |x| < 2^(e+1)` the spacing of the
values is `2^(e-52)`. -/
noncomputable def roundBinary64 (x : ℝ) : ℝ :=
  if x = 0 then 0
  else roundHalfEven (x / 2 ^ (Int.log 2 |x| - 52)) * 2 ^ (Int.log 2 |x| - 52)

/-- The type `double` as a scalar type: the result of every arithmetic operation and of
every `<cmath>` function is the exact result rounded by `roundBinary64`; negation, `fabs`
and the comparisons are exact; `std::numeric_limits<double>::epsilon()` is `2^(-52)`.
Infinities and NaN are not values of the model: `std::log` of `0` has no value in it,
which the checked accessors (`EtaChecked`) report as `none`.  The `<cmath>` functions are
taken as correctly rounded; of `std::pow` and `std::log` the results below use only that
the threshold of `Eta()` is at least `2^29` and that `ln(2^28)` is at least `1`.  The
saturation constant is a parameter. -/
noncomputable def binary64Scalar (etaMax : ℝ) : Scalar ℝ where
  zero := 0
  one := 1
  add := fun a b => roundBinary64 (a + b)
  sub := fun a b => roundBinary64 (a - b)
  mul := fun a b => roundBinary64 (a * b)
  div := fun a b => roundBinary64 (a / b)
  neg := fun a => -a
  lt := fun a b => a < b
  decEq := inferInstance
  decLt := fun a b => inferInstanceAs (Decidable (a < b))
  cast := fun q => roundBinary64 (q : ℝ)
  sqrt := fun a => roundBinary64 (Real.sqrt a)
  log := fun a => roundBinary64 (Real.log a)
  pow := fun a b => roundBinary64 (a ^ b)
  fabs := fun a => |a|
  atan2 := fun y x => roundBinary64 (Complex.arg ⟨x, y⟩)
  cos := fun a => roundBinary64 (Real.cos a)
  sin := fun a => roundBinary64 (Real.sin a)
  epsilon := 2 ^ (-52 : ℤ)
  etaMax := etaMax

/-! ## Mutators and comparison -/

namespace Cartesian3D

variable {S : Type} [Scalar S]

/-- Member `SetX(x)`: `fX = x`. -/
def SetX (v : Cartesian3D S) (x : S) : Cartesian3D S := { v with fX := x }

/-- Member `SetY(y)`: `fY = y`. -/
def SetY (v : Cartesian3D S) (y : S) : Cartesian3D S := { v with fY := y }

/-- Member `SetZ(z)`: `fZ = z`. -/
def SetZ (v : Cartesian3D S) (z : S) : Cartesian3D S := { v with fZ := z }

/-- Member `Scale(a)`: `fX *= a; fY *= a; fZ *= a`. -/
def Scale (v : Cartesian3D S) (a : S) : Cartesian3D S :=
  let s1 : Cartesian3D S := { v with fX := v.fX * a }
  let s2 : Cartesian3D S := { s1 with fY := s1.fY * a }
  { s2 with fZ := s2.fZ * a }

/-- Member `Negate()`: `fX = -fX; fY = -fY; fZ = -fZ`. -/
def Negate (v : Cartesian3D S) : Cartesian3D S :=
  let s1 : Cartesian3D S := { v with fX := -v.fX }
  let s2 : Cartesian3D S := { s1 with fY := -s1.fY }
  { s2 with fZ := -s2.fZ }

/-- Member `operator ==`: `fX == rhs.fX && fY == rhs.fY && fZ == rhs.fZ`. -/
def operator_eq (v rhs : Cartesian3D S) : Bool :=
  decide (v.fX = rhs.fX) && decide (v.fY = rhs.fY) && decide (v.fZ = rhs.fZ)

/-- Member `operator !=`: `!(operator==(rhs))`. -/
def operator_ne (v rhs : Cartesian3D S) : Bool := !(operator_eq v rhs)

end Cartesian3D

/-! ## Setters of coordinates of other systems -/

/-- The class `GenVector_exception` as the setters use it: an exception is built from
its message. -/
structure GenVector_exception where
  /-- The message the exception is constructed with. -/
  msg : String

/-- Modelled from the spec: `Throw` is declared in `Math/GenVector/GenVector_exception.h`,
which is outside the excerpt.  By the specification a setter of a derived coordinate
signals the fault and afterwards still performs the mutation: `Throw(e)` adds `e` to the
faults signalled so far and returns. -/
def Throw (e : GenVector_exception) (signalled : List GenVector_exception) :
    List GenVector_exception :=
  signalled ++ [e]

/-- What the setters use of `Polar3D<Scalar>`, a class outside the excerpt and therefore
a parameter: the accessors read by the conversion back to `Cartesian3D`, the
constructor from a `Cartesian3D`, and the setters `SetR`, `SetTheta`, `SetPhi`. -/
structure Polar3DClass (P S : Type) extends Polar3DAccessors P S where
  /-- Constructor `Polar3D<Scalar> v(c)` from a `Cartesian3D`. -/
  ofCartesian3D : Cartesian3D S → P
  /-- Member `SetR(r)`. -/
  SetR : P → S → P
  /-- Member `SetTheta(theta)`. -/
  SetTheta : P → S → P
  /-- Member `SetPhi(phi)`. -/
  SetPhi : P → S → P

/-- What the setters use of `CylindricalEta3D<Scalar>`, a class outside the excerpt and
therefore a parameter: the accessors `X()`, `Y()`, `Z()` read by the conversion back to
`Cartesian3D`, the constructor from a `Cartesian3D`, and the setters `SetRho`, `SetEta`. -/
structure CylindricalEta3DClass (C S : Type) extends CoordSystem C S where
  /-- Constructor `CylindricalEta3D<Scalar> v(c)` from a `Cartesian3D`. -/
  ofCartesian3D : Cartesian3D S → C
  /-- Member `SetRho(rho)`. -/
  SetRho : C → S → C
  /-- Member `SetEta(eta)`. -/
  SetEta : C → S → C

namespace Cartesian3D

variable {S : Type} [Scalar S]

/-- Member `SetR(r)`: the faults signalled and the state of `*this` afterwards. -/
def SetR {P : Type} (pol : Polar3DClass P S) (self : Cartesian3D S) (r : S) :
    List GenVector_exception × Cartesian3D S :=
  let e : GenVector_exception := ⟨"Cartesian3D::SetR() is not supposed to be called"⟩
  let signalled := Throw e []
  let v : P := pol.ofCartesian3D self
  let v : P := pol.SetR v r
  (signalled, ofPolar3D ScalarConversion.same pol.toPolar3DAccessors v)

/-- Member `SetTheta(theta)`: the faults signalled and the state of `*this` afterwards. -/
def SetTheta {P : Type} (pol : Polar3DClass P S) (self : Cartesian3D S) (theta : S) :
    List GenVector_exception × Cartesian3D S :=
  let e : GenVector_exception := ⟨"Cartesian3D::SetTheta() is not supposed to be called"⟩
  let signalled := Throw e []
  let v : P := pol.ofCartesian3D self
  let v : P := pol.SetTheta v theta
  (signalled, ofPolar3D ScalarConversion.same pol.toPolar3DAccessors v)

/-- Member `SetPhi(phi)`: the faults signalled and the state of `*this` afterwards. -/
def SetPhi {P : Type} (pol : Polar3DClass P S) (self : Cartesian3D S) (phi : S) :
    List GenVector_exception × Cartesian3D S :=
  let e : GenVector_exception := ⟨"Cartesian3D::SetPhi() is not supposed to be called"⟩
  let signalled := Throw e []
  let v : P := pol.ofCartesian3D self
  let v : P := pol.SetPhi v phi
  (signalled, ofPolar3D ScalarConversion.same pol.toPolar3DAccessors v)

/-- Member `SetRho(rho)`: the faults signalled and the state of `*this` afterwards. -/
def SetRho {C : Type} (cyl : CylindricalEta3DClass C S) (self : Cartesian3D S) (rho : S) :
    List GenVector_exception × Cartesian3D S :=
  let e : GenVector_exception := ⟨"Cartesian3D::SetRho() is not supposed to be called"⟩
  let signalled := Throw e []
  let v : C := cyl.ofCartesian3D self
  let v : C := cyl.SetRho v rho
  (signalled, ofCoordSystem ScalarConversion.same cyl.toCoordSystem v)

/-- Member `SetEta(eta)`: the faults signalled and the state of `*this` afterwards. -/
def SetEta {C : Type} (cyl : CylindricalEta3DClass C S) (self : Cartesian3D S) (eta : S) :
    List GenVector_exception × Cartesian3D S :=
  let e : GenVector_exception := ⟨"Cartesian3D::SetEta() is not supposed to be called"⟩
  let signalled := Throw e []
  let v : C := cyl.ofCartesian3D self
  let v : C := cyl.SetEta v eta
  (signalled, ofCoordSystem ScalarConversion.same cyl.toCoordSystem v)

end Cartesian3D

end GenVector

/-! # RooPlotable (roofitcore) -/

/-- The data members of `RooPlotable`: `_yAxisLabel`, `_ymin`, `_ymax`.  The type `α` of
the limits stands for `Double_t`. -/
structure RooPlotable (α : Type) where
  /-- The label of the y axis. -/
  _yAxisLabel : String
  /-- The lower limit of the y axis. -/
  _ymin : α
  /-- The upper limit of the y axis. -/
  _ymax : α

namespace RooPlotable

variable {α : Type} [LinearOrder α] [Zero α]

/-- Constructor `RooPlotable() : _ymin(0), _ymax(0)`; the label is default-constructed. -/
def new : RooPlotable α := { _yAxisLabel := "", _ymin := 0, _ymax := 0 }

/-- Member `updateYAxisLimits(y)`: `if(y > _ymax) _ymax= y; if(y < _ymin) _ymin= y;`. -/
def updateYAxisLimits (p : RooPlotable α) (y : α) : RooPlotable α :=
  let p1 : RooPlotable α := if y > p._ymax then { p with _ymax := y } else p
  if y < p1._ymin then { p1 with _ymin := y } else p1

/-- Member `getYAxisMin()`. -/
def getYAxisMin (p : RooPlotable α) : α := p._ymin

/-- Member `getYAxisMax()`. -/
def getYAxisMax (p : RooPlotable α) : α := p._ymax

/-- The plotable after `updateYAxisLimits(y_1)`, ..., `updateYAxisLimits(y_n)`. -/
def updateAll (p : RooPlotable α) (ys : List α) : RooPlotable α :=
  ys.foldl updateYAxisLimits p

end RooPlotable

namespace GenVector

open Cartesian3D

/-! ## The accessors over the reals, unfolded -/

theorem Mag2_real (eps M : ℝ) (v : Cartesian3D ℝ) :
    @Mag2 ℝ (realScalar eps M) v = v.fX * v.fX + v.fY * v.fY + v.fZ * v.fZ := rfl

theorem Perp2_real (eps M : ℝ) (v : Cartesian3D ℝ) :
    @Perp2 ℝ (realScalar eps M) v = v.fX * v.fX + v.fY * v.fY := rfl

theorem Rho_real (eps M : ℝ) (v : Cartesian3D ℝ) :
    @Rho ℝ (realScalar eps M) v = Real.sqrt (v.fX * v.fX + v.fY * v.fY) := rfl

theorem R_real (eps M : ℝ) (v : Cartesian3D ℝ) :
    @R ℝ (realScalar eps M) v = Real.sqrt (v.fX * v.fX + v.fY * v.fY + v.fZ * v.fZ) := rfl

theorem Theta_real (eps M : ℝ) (v : Cartesian3D ℝ) :
    @Theta ℝ (realScalar eps M) v =
      if v.fX = 0 ∧ v.fY = 0 ∧ v.fZ = 0 then 0
      else Complex.arg ⟨v.fZ, Real.sqrt (v.fX * v.fX + v.fY * v.fY)⟩ := rfl

theorem Phi_real (eps M : ℝ) (v : Cartesian3D ℝ) :
    @Phi ℝ (realScalar eps M) v =
      if v.fX = 0 ∧ v.fY = 0 then 0 else Complex.arg ⟨v.fX, v.fY⟩ := rfl

theorem cast_exponent_real : (((-0.6 : ℚ)) : ℝ) = -0.6 := by norm_num

theorem cast_two_real : (((2.0 : ℚ)) : ℝ) = 2 := by norm_num

theorem Eta_real (eps M : ℝ) (v : Cartesian3D ℝ) :
    @Eta ℝ (realScalar eps M) v =
      if 0 < @Rho ℝ (realScalar eps M) v then
        if |v.fZ / @Rho ℝ (realScalar eps M) v| < eps ^ (-0.6 : ℝ) then
          Real.log (v.fZ / @Rho ℝ (realScalar eps M) v
            + Real.sqrt (v.fZ / @Rho ℝ (realScalar eps M) v
                * (v.fZ / @Rho ℝ (realScalar eps M) v) + 1))
        else if 0 < v.fZ then
          Real.log (2 * (v.fZ / @Rho ℝ (realScalar eps M) v))
        else -Real.log (-2 * (v.fZ / @Rho ℝ (realScalar eps M) v))
      else if v.fZ = 0 then 0
      else if 0 < v.fZ then v.fZ + M else v.fZ - M := by
  rw [← cast_exponent_real, ← cast_two_real]
  rfl

/-! ## Facts of real analysis used below -/

theorem abs_mk_eq (a b : ℝ) : Complex.abs ⟨a, b⟩ = Real.sqrt (a * a + b * b) := by
  rw [Complex.abs_apply, Complex.normSq_mk]

theorem tan_half_of_sin_pos (θ : ℝ) (h0 : 0 < θ) (hpi : θ < Real.pi) :
    Real.tan (θ / 2) = Real.sin θ / (1 + Real.cos θ) := by
  have hc : 0 < Real.cos (θ / 2) :=
    Real.cos_pos_of_mem_Ioo ⟨by linarith [Real.pi_pos], by linarith⟩
  have hs : Real.sin θ = 2 * Real.sin (θ / 2) * Real.cos (θ / 2) := by
    rw [← Real.sin_two_mul]; congr 1; ring
  have hcc : Real.cos θ = 2 * Real.cos (θ / 2) ^ 2 - 1 := by
    rw [← Real.cos_two_mul]; congr 1; ring
  rw [Real.tan_eq_sin_div_cos, hs, hcc]
  field_simp
  ring

theorem log_stable_eq_neg_log_tan (z rho : ℝ) (hrho : 0 < rho) :
    Real.log (z / rho + Real.sqrt (z / rho * (z / rho) + 1))
      = -Real.log (Real.tan (Complex.arg ⟨z, rho⟩ / 2)) := by
  set w : ℂ := ⟨z, rho⟩ with hw
  have him : 0 < w.im := hrho
  have hne : w ≠ 0 := fun h => by rw [h] at him; simp at him
  have h0 : 0 < Complex.arg w := by
    rcases (Complex.arg_nonneg_iff.mpr him.le).lt_or_eq with h | h
    · exact h
    · exact absurd (Complex.arg_eq_zero_iff.mp h.symm).2 (ne_of_gt him)
  have hpi : Complex.arg w < Real.pi := Complex.arg_lt_pi_iff.mpr (Or.inr (ne_of_gt him))
  have hr : 0 < Complex.abs w := Complex.abs.pos hne
  have habs : Complex.abs w = Real.sqrt (z * z + rho * rho) := abs_mk_eq z rho
  have hzr : |z| < Complex.abs w := by
    rw [habs]
    apply Real.lt_sqrt_of_sq_lt
    rw [sq_abs]; nlinarith
  have hsum : 0 < Complex.abs w + z := by
    have := neg_abs_le z
    linarith
  have hsqrt : Real.sqrt (z / rho * (z / rho) + 1) = Complex.abs w / rho := by
    have e : z / rho * (z / rho) + 1 = (z * z + rho * rho) / (rho * rho) := by
      field_simp
    rw [e, Real.sqrt_div (add_nonneg (mul_self_nonneg z) (mul_self_nonneg rho)),
      Real.sqrt_mul_self hrho.le, habs]
  rw [tan_half_of_sin_pos _ h0 hpi, Complex.sin_arg, Complex.cos_arg hne, hsqrt]
  have e1 : w.im / Complex.abs w / (1 + w.re / Complex.abs w)
      = (z / rho + Complex.abs w / rho)⁻¹ := by
    show rho / Complex.abs w / (1 + z / Complex.abs w) = _
    have hr0 : Complex.abs w ≠ 0 := hr.ne'
    have hs0 : Complex.abs w + z ≠ 0 := hsum.ne'
    have hs1 : z + Complex.abs w ≠ 0 := by rwa [add_comm]
    field_simp
    exact Or.inl (add_comm _ _)
  rw [e1, Real.log_inv, neg_neg]

theorem stable_sub_asymptotic_bounds (t : ℝ) (ht : 0 < t) :
    0 ≤ Real.log (t + Real.sqrt (t ^ 2 + 1)) - Real.log (2 * t)
    ∧ Real.log (t + Real.sqrt (t ^ 2 + 1)) - Real.log (2 * t) ≤ 1 / (4 * t ^ 2) := by
  have hs_lo : t ≤ Real.sqrt (t ^ 2 + 1) :=
    Real.le_sqrt_of_sq_le (by linarith)
  have hs_hi : Real.sqrt (t ^ 2 + 1) ≤ t + 1 / (2 * t) := by
    rw [Real.sqrt_le_left (by positivity)]
    have : (t + 1 / (2 * t)) ^ 2 = t ^ 2 + 1 + 1 / (4 * t ^ 2) := by
      field_simp; ring
    rw [this]
    have : 0 ≤ 1 / (4 * t ^ 2) := by positivity
    linarith
  have h2t : 0 < 2 * t := by linarith
  have hsum : 0 < t + Real.sqrt (t ^ 2 + 1) := by linarith
  constructor
  · have := Real.log_le_log h2t (show 2 * t ≤ t + Real.sqrt (t ^ 2 + 1) by linarith)
    linarith
  · rw [← Real.log_div hsum.ne' h2t.ne']
    have hq : 0 < (t + Real.sqrt (t ^ 2 + 1)) / (2 * t) := div_pos hsum h2t
    have h1 := Real.log_le_sub_one_of_pos hq
    have h2 : (t + Real.sqrt (t ^ 2 + 1)) / (2 * t) ≤ (t + (t + 1 / (2 * t))) / (2 * t) :=
      div_le_div_of_nonneg_right (by linarith) h2t.le
    have h3 : (t + (t + 1 / (2 * t))) / (2 * t) - 1 = 1 / (4 * t ^ 2) := by
      field_simp; ring
    linarith

theorem threshold_gap (eps t : ℝ) (h0 : 0 < eps) (h1 : eps ≤ 1)
    (ht : eps ^ (-0.6 : ℝ) ≤ t) :
    1 ≤ t ∧ 1 / (4 * t ^ 2) ≤ eps ^ (1.2 : ℝ) / 4 ∧ eps ^ (1.2 : ℝ) / 4 < eps := by
  have hbig1 : 1 ≤ eps ^ (-0.6 : ℝ) :=
    Real.one_le_rpow_of_pos_of_le_one_of_nonpos h0 h1 (by norm_num)
  have hbigpos : 0 < eps ^ (-0.6 : ℝ) := Real.rpow_pos_of_pos h0 _
  have ht0 : 0 < t := lt_of_lt_of_le hbigpos ht
  have hsq : (eps ^ (-0.6 : ℝ)) ^ 2 = (eps ^ (1.2 : ℝ))⁻¹ := by
    rw [← Real.rpow_natCast, ← Real.rpow_mul h0.le, ← Real.rpow_neg h0.le]
    norm_num
  have hp : 0 < eps ^ (1.2 : ℝ) := Real.rpow_pos_of_pos h0 _
  have ht2 : (eps ^ (1.2 : ℝ))⁻¹ ≤ t ^ 2 := by
    rw [← hsq]
    exact pow_le_pow_left₀ hbigpos.le ht 2
  refine ⟨le_trans hbig1 ht, ?_, ?_⟩
  · rw [div_le_div_iff₀ (by positivity) (by norm_num)]
    have : 1 ≤ eps ^ (1.2 : ℝ) * t ^ 2 := by
      have := mul_le_mul_of_nonneg_left ht2 hp.le
      rwa [mul_inv_cancel₀ hp.ne'] at this
    linarith
  · have : eps ^ (1.2 : ℝ) ≤ eps ^ (1 : ℝ) :=
      Real.rpow_le_rpow_of_exponent_ge h0 h1 (by norm_num)
    rw [Real.rpow_one] at this
    linarith

theorem double_threshold_le : ((1 : ℝ) / 2 ^ 52) ^ (-0.6 : ℝ) ≤ 2 ^ 32 := by
  have e : ((1 : ℝ) / 2 ^ 52) = (2 : ℝ) ^ (-52 : ℝ) := by
    rw [Real.rpow_neg (by norm_num), one_div]
    congr 1
    rw [← Real.rpow_natCast]
    norm_num
  rw [e, ← Real.rpow_mul (by norm_num)]
  have e2 : ((2 : ℝ) ^ 32) = (2 : ℝ) ^ (32 : ℝ) := by
    rw [← Real.rpow_natCast]
    norm_num
  rw [e2]
  exact Real.rpow_le_rpow_of_exponent_le (by norm_num) (by norm_num)

/-! ## The checked operations over the reals -/

theorem sqrtChecked_real (eps M x : ℝ) (hx : 0 ≤ x) :
    @sqrtChecked ℝ (realScalar eps M) x = some (Real.sqrt x) :=
  if_neg (not_lt.mpr hx)

theorem logChecked_real (eps M x : ℝ) (hx : 0 < x) :
    @logChecked ℝ (realScalar eps M) x = some (Real.log x) :=
  if_pos hx

theorem divChecked_real (eps M a b : ℝ) (hb : 0 < b) :
    @divChecked ℝ (realScalar eps M) a b = some (a / b) :=
  if_pos hb

theorem EtaChecked_real (eps M : ℝ) (v : Cartesian3D ℝ) :
    @EtaChecked ℝ (realScalar eps M) v =
      (@RhoChecked ℝ (realScalar eps M) v).bind fun rho =>
        if 0 < rho then
          (@divChecked ℝ (realScalar eps M) v.fZ rho).bind fun z_scaled =>
            if |z_scaled| < eps ^ (-0.6 : ℝ) then
              (@sqrtChecked ℝ (realScalar eps M) (z_scaled * z_scaled + 1)).bind fun s =>
                @logChecked ℝ (realScalar eps M) (z_scaled + s)
            else if 0 < v.fZ then @logChecked ℝ (realScalar eps M) (2 * z_scaled)
            else (@logChecked ℝ (realScalar eps M) (-2 * z_scaled)).bind fun l => some (-l)
        else if v.fZ = 0 then some 0
        else if 0 < v.fZ then some (v.fZ + M) else some (v.fZ - M) := by
  rw [← cast_exponent_real, ← cast_two_real]
  rfl

/-! ## Pseudorapidity: the branches -/

/-- C1: for a vector with `rho = Rho() > 0`, with `z_scaled = z/rho` and
`big_z_scaled = eps^(-0.6)`: if `|z_scaled| < big_z_scaled` then `Eta()` is
`ln(z_scaled + sqrt(z_scaled^2 + 1))`; otherwise `Eta()` is `ln(2*z_scaled)` when
`z > 0` and `-ln(-2*z_scaled)` when `z <= 0`. -/
theorem C1_Eta_off_axis (eps M : ℝ) (v : Cartesian3D ℝ)
    (hrho : 0 < @Rho ℝ (realScalar eps M) v) :
    let z_scaled := v.fZ / @Rho ℝ (realScalar eps M) v
    let big_z_scaled := eps ^ (-0.6 : ℝ)
    let eta := @Eta ℝ (realScalar eps M) v
    (|z_scaled| < big_z_scaled →
        eta = Real.log (z_scaled + Real.sqrt (z_scaled ^ 2 + 1)))
    ∧ (¬ |z_scaled| < big_z_scaled → 0 < v.fZ → eta = Real.log (2 * z_scaled))
    ∧ (¬ |z_scaled| < big_z_scaled → v.fZ ≤ 0 → eta = -Real.log (-2 * z_scaled)) := by
  intro z_scaled big_z_scaled eta
  have hEta : eta = @Eta ℝ (realScalar eps M) v := rfl
  rw [Eta_real, if_pos hrho] at hEta
  refine ⟨fun h => ?_, fun h hz => ?_, fun h hz => ?_⟩
  · rw [hEta, if_pos h, pow_two]
  · rw [hEta, if_neg h, if_pos hz]
  · rw [hEta, if_neg h, if_neg (not_lt.mpr hz)]

/-- C1 at the vector `(3,4,0)` with `eps = 2^(-52)`: `Rho() > 0`, the stable branch
is taken. -/
theorem C1_Eta_off_axis_witness :
    0 < @Rho ℝ (realScalar (1 / 2 ^ 52) 22756) (Cartesian3D.mk 3 4 0)
    ∧ @Eta ℝ (realScalar (1 / 2 ^ 52) 22756) (Cartesian3D.mk 3 4 0)
        = Real.log (0 / @Rho ℝ (realScalar (1 / 2 ^ 52) 22756) (Cartesian3D.mk 3 4 0)
            + Real.sqrt ((0 / @Rho ℝ (realScalar (1 / 2 ^ 52) 22756) (Cartesian3D.mk 3 4 0)) ^ 2
                + 1)) := by
  have hrho : 0 < @Rho ℝ (realScalar (1 / 2 ^ 52) 22756) (Cartesian3D.mk 3 4 0) := by
    rw [Rho_real]
    exact Real.sqrt_pos.mpr (by norm_num)
  refine ⟨hrho, (C1_Eta_off_axis (1 / 2 ^ 52) 22756 (Cartesian3D.mk 3 4 0) hrho).1 ?_⟩
  simp only [zero_div, abs_zero]
  exact Real.rpow_pos_of_pos (by norm_num) _

/-- C2: on the axis, `Eta()` of `(0,0,z)` is `z + etaMax` for every `z > 0` and
`z - etaMax` for every `z < 0`, and `Eta()` of `(0,0,0)` is `0`. -/
theorem C2_Eta_on_axis (eps M : ℝ) (z : ℝ) :
    (0 < z → @Eta ℝ (realScalar eps M) (Cartesian3D.mk 0 0 z) = z + M)
    ∧ (z < 0 → @Eta ℝ (realScalar eps M) (Cartesian3D.mk 0 0 z) = z - M)
    ∧ @Eta ℝ (realScalar eps M) (Cartesian3D.mk 0 0 0) = 0 := by
  have hrho : ∀ t : ℝ, ¬ 0 < @Rho ℝ (realScalar eps M) (Cartesian3D.mk 0 0 t) := by
    intro t
    rw [Rho_real]
    simp
  refine ⟨fun hz => ?_, fun hz => ?_, ?_⟩
  · rw [Eta_real, if_neg (hrho z), if_neg (ne_of_gt hz), if_pos hz]
  · rw [Eta_real, if_neg (hrho z), if_neg (ne_of_lt hz), if_neg (not_lt.mpr (le_of_lt hz))]
  · rw [Eta_real, if_neg (hrho 0), if_pos rfl]

/-- C2 at `(0,0,2)` and `(0,0,-2)` with `etaMax = 22756`. -/
theorem C2_Eta_on_axis_witness :
    @Eta ℝ (realScalar (1 / 2 ^ 52) 22756) (Cartesian3D.mk 0 0 2) = 2 + 22756
    ∧ @Eta ℝ (realScalar (1 / 2 ^ 52) 22756) (Cartesian3D.mk 0 0 (-2)) = -2 - 22756 :=
  ⟨(C2_Eta_on_axis (1 / 2 ^ 52) 22756 2).1 (by norm_num),
   (C2_Eta_on_axis (1 / 2 ^ 52) 22756 (-2)).2.1 (by norm_num)⟩

/-- In exact real arithmetic, for a vector with `Rho() > 0` whose `z/rho` lies in the
stable branch, the value of `Eta()` is `-ln(tan(Theta()/2))`: the stable formula is the
pseudorapidity when nothing is rounded. -/
theorem Eta_eq_neg_log_tan_half_Theta_exact (eps M : ℝ) (v : Cartesian3D ℝ)
    (hrho : 0 < @Rho ℝ (realScalar eps M) v)
    (hstable : |v.fZ / @Rho ℝ (realScalar eps M) v| < eps ^ (-0.6 : ℝ)) :
    @Eta ℝ (realScalar eps M) v = -Real.log (Real.tan (@Theta ℝ (realScalar eps M) v / 2)) := by
  have hnot : ¬ (v.fX = 0 ∧ v.fY = 0 ∧ v.fZ = 0) := by
    rintro ⟨hx, hy, -⟩
    rw [Rho_real, hx, hy] at hrho
    simp at hrho
  rw [Eta_real, if_pos hrho, if_pos hstable, Theta_real, if_neg hnot, Rho_real]
  rw [Rho_real] at hrho
  exact log_stable_eq_neg_log_tan v.fZ _ hrho

/-- C4: `Eta()` has no jump at the branch boundary.  For every `z_scaled >= 1` the
stable value `ln(z_scaled + sqrt(z_scaled^2+1))` and the asymptotic value
`ln(2*z_scaled)` satisfy `0 <= stable - asymptotic <= 1/(4*z_scaled^2)`; and for a
vector with `z > 0`, `rho > 0` and `z/rho` at or beyond `eps^(-0.6)`, where `Eta()`
returns the asymptotic value, the stable formula differs from it by at most
`eps^(1.2)/4`, which is below `eps`.  Here `eps` is a machine epsilon: `0 < eps < 1`. -/
theorem C4_Eta_branch_boundary (eps M : ℝ) (h0 : 0 < eps) (h1 : eps < 1) :
    (∀ z_scaled : ℝ, 1 ≤ z_scaled →
        0 ≤ Real.log (z_scaled + Real.sqrt (z_scaled ^ 2 + 1)) - Real.log (2 * z_scaled)
        ∧ Real.log (z_scaled + Real.sqrt (z_scaled ^ 2 + 1)) - Real.log (2 * z_scaled)
            ≤ 1 / (4 * z_scaled ^ 2))
    ∧ (∀ v : Cartesian3D ℝ, 0 < @Rho ℝ (realScalar eps M) v → 0 < v.fZ →
        eps ^ (-0.6 : ℝ) ≤ v.fZ / @Rho ℝ (realScalar eps M) v →
        let z_scaled := v.fZ / @Rho ℝ (realScalar eps M) v
        let stable := Real.log (z_scaled + Real.sqrt (z_scaled ^ 2 + 1))
        @Eta ℝ (realScalar eps M) v = Real.log (2 * z_scaled)
        ∧ 0 ≤ stable - @Eta ℝ (realScalar eps M) v
        ∧ stable - @Eta ℝ (realScalar eps M) v ≤ eps ^ (1.2 : ℝ) / 4
        ∧ eps ^ (1.2 : ℝ) / 4 < eps) := by
  refine ⟨fun t ht => stable_sub_asymptotic_bounds t (by linarith), ?_⟩
  intro v hrho hz hbig z_scaled stable
  obtain ⟨ht1, hgap, hlt⟩ := threshold_gap eps z_scaled h0 h1.le hbig
  have ht0 : 0 < z_scaled := by linarith
  have hEta : @Eta ℝ (realScalar eps M) v = Real.log (2 * z_scaled) := by
    rw [Eta_real, if_pos hrho, if_neg (not_lt.mpr (le_trans hbig (le_abs_self _))), if_pos hz]
  obtain ⟨hlo, hhi⟩ := stable_sub_asymptotic_bounds z_scaled ht0
  rw [hEta]
  exact ⟨rfl, hlo, le_trans hhi hgap, hlt⟩

/-- C4 at the vector `(1,0,2^32)` with `eps = 2^(-52)`: `z/rho = 2^32` is beyond the
threshold, `Eta()` is the asymptotic value and the stable value is within `eps` of it. -/
theorem C4_Eta_branch_boundary_witness :
    @Eta ℝ (realScalar (1 / 2 ^ 52) 22756) (Cartesian3D.mk 1 0 (2 ^ 32))
        = Real.log
            (2 * (2 ^ 32 / @Rho ℝ (realScalar (1 / 2 ^ 52) 22756) (Cartesian3D.mk 1 0 (2 ^ 32))))
    ∧ ((1 : ℝ) / 2 ^ 52) ^ (1.2 : ℝ) / 4 < 1 / 2 ^ 52 := by
  have hrho : @Rho ℝ (realScalar (1 / 2 ^ 52) 22756) (Cartesian3D.mk 1 0 (2 ^ 32)) = 1 := by
    rw [Rho_real]
    simp
  have h := (C4_Eta_branch_boundary (1 / 2 ^ 52) 22756 (by norm_num) (by norm_num)).2
    (Cartesian3D.mk 1 0 (2 ^ 32)) (by rw [hrho]; norm_num) (by norm_num)
    (by rw [hrho, div_one]; exact double_threshold_le)
  exact ⟨h.1, h.2.2.2⟩

/-! ## The angles -/

/-- C5: for every `(x,y,z)` other than `(0,0,0)`, `Theta()` is `atan2(Rho(), z)` and
`Phi()` is `atan2(y, x)`, where `Phi()` returns exactly `0` whenever `x = y = 0`, for
any `z` (and `atan2(0, 0)` is `0`); at the origin `Theta()` and `Phi()` both return exactly `0`. -/
theorem C5_Theta_Phi (eps M : ℝ) (x y z : ℝ) :
    (¬ (x = 0 ∧ y = 0 ∧ z = 0) →
        @Theta ℝ (realScalar eps M) (Cartesian3D.mk x y z)
          = @Scalar.atan2 ℝ (realScalar eps M)
              (@Rho ℝ (realScalar eps M) (Cartesian3D.mk x y z)) z)
    ∧ (¬ (x = 0 ∧ y = 0 ∧ z = 0) →
        @Phi ℝ (realScalar eps M) (Cartesian3D.mk x y z)
          = @Scalar.atan2 ℝ (realScalar eps M) y x)
    ∧ (x = 0 ∧ y = 0 → @Phi ℝ (realScalar eps M) (Cartesian3D.mk x y z) = 0)
    ∧ @Theta ℝ (realScalar eps M) (Cartesian3D.mk 0 0 0) = 0
    ∧ @Phi ℝ (realScalar eps M) (Cartesian3D.mk 0 0 0) = 0 := by
  refine ⟨fun h => ?_, fun _ => ?_, fun h => ?_, ?_, ?_⟩
  · rw [Theta_real, if_neg h]
    rfl
  · rw [Phi_real]
    by_cases hxy : x = 0 ∧ y = 0
    · rw [if_pos hxy]
      show (0 : ℝ) = Complex.arg ⟨x, y⟩
      rw [hxy.1, hxy.2]
      exact Complex.arg_zero.symm
    · rw [if_neg hxy]
      rfl
  · rw [Phi_real, if_pos h]
  · rw [Theta_real, if_pos ⟨rfl, rfl, rfl⟩]
  · rw [Phi_real, if_pos ⟨rfl, rfl⟩]

/-- C5 at `(3,4,12)` and at `(0,0,7)`. -/
theorem C5_Theta_Phi_witness :
    @Theta ℝ (realScalar (1 / 2 ^ 52) 22756) (Cartesian3D.mk 3 4 12)
        = @Scalar.atan2 ℝ (realScalar (1 / 2 ^ 52) 22756)
            (@Rho ℝ (realScalar (1 / 2 ^ 52) 22756) (Cartesian3D.mk 3 4 12)) 12
    ∧ @Phi ℝ (realScalar (1 / 2 ^ 52) 22756) (Cartesian3D.mk 3 4 12)
        = @Scalar.atan2 ℝ (realScalar (1 / 2 ^ 52) 22756) 4 3
    ∧ @Phi ℝ (realScalar (1 / 2 ^ 52) 22756) (Cartesian3D.mk 0 0 7) = 0 :=
  ⟨(C5_Theta_Phi (1 / 2 ^ 52) 22756 3 4 12).1 (by norm_num),
   (C5_Theta_Phi (1 / 2 ^ 52) 22756 3 4 12).2.1 (by norm_num),
   (C5_Theta_Phi (1 / 2 ^ 52) 22756 0 0 7).2.2.1 ⟨rfl, rfl⟩⟩

/-- C6: for a vector `(x,y,z)` with `Rho() > 0`, the Cartesian components rebuilt from
its own derived accessors are the original ones: `Rho()*cos(Phi()) = x`,
`Rho()*sin(Phi()) = y`, `R()*cos(Theta()) = z` and `R()*sin(Theta()) = Rho()`, exactly
over the reals. -/
theorem C6_polar_round_trip (eps M : ℝ) (v : Cartesian3D ℝ)
    (hrho : 0 < @Rho ℝ (realScalar eps M) v) :
    @Rho ℝ (realScalar eps M) v * Real.cos (@Phi ℝ (realScalar eps M) v) = v.fX
    ∧ @Rho ℝ (realScalar eps M) v * Real.sin (@Phi ℝ (realScalar eps M) v) = v.fY
    ∧ @R ℝ (realScalar eps M) v * Real.cos (@Theta ℝ (realScalar eps M) v) = v.fZ
    ∧ @R ℝ (realScalar eps M) v * Real.sin (@Theta ℝ (realScalar eps M) v)
        = @Rho ℝ (realScalar eps M) v := by
  have hxy : ¬ (v.fX = 0 ∧ v.fY = 0) := by
    rintro ⟨hx, hy⟩
    rw [Rho_real, hx, hy] at hrho
    simp at hrho
  have hxyz : ¬ (v.fX = 0 ∧ v.fY = 0 ∧ v.fZ = 0) := fun h => hxy ⟨h.1, h.2.1⟩
  have hR : @R ℝ (realScalar eps M) v
      = Complex.abs ⟨v.fZ, @Rho ℝ (realScalar eps M) v⟩ := by
    rw [abs_mk_eq, R_real, Rho_real,
      Real.mul_self_sqrt (add_nonneg (mul_self_nonneg v.fX) (mul_self_nonneg v.fY))]
    congr 1
    ring
  have hRho : @Rho ℝ (realScalar eps M) v = Complex.abs ⟨v.fX, v.fY⟩ := by
    rw [abs_mk_eq, Rho_real]
  have hTheta : @Theta ℝ (realScalar eps M) v
      = Complex.arg ⟨v.fZ, @Rho ℝ (realScalar eps M) v⟩ := by
    rw [Theta_real, if_neg hxyz, Rho_real]
  have hPhi : @Phi ℝ (realScalar eps M) v = Complex.arg ⟨v.fX, v.fY⟩ := by
    rw [Phi_real, if_neg hxy]
  refine ⟨?_, ?_, ?_, ?_⟩
  · rw [hPhi, hRho]
    exact Complex.abs_mul_cos_arg ⟨v.fX, v.fY⟩
  · rw [hPhi, hRho]
    exact Complex.abs_mul_sin_arg ⟨v.fX, v.fY⟩
  · rw [hTheta, hR]
    exact Complex.abs_mul_cos_arg ⟨v.fZ, @Rho ℝ (realScalar eps M) v⟩
  · rw [hTheta, hR]
    exact Complex.abs_mul_sin_arg ⟨v.fZ, @Rho ℝ (realScalar eps M) v⟩

/-- C6 at the vector `(3,4,12)`. -/
theorem C6_polar_round_trip_witness :
    0 < @Rho ℝ (realScalar (1 / 2 ^ 52) 22756) (Cartesian3D.mk 3 4 12)
    ∧ @Rho ℝ (realScalar (1 / 2 ^ 52) 22756) (Cartesian3D.mk 3 4 12)
        * Real.cos (@Phi ℝ (realScalar (1 / 2 ^ 52) 22756) (Cartesian3D.mk 3 4 12)) = 3
    ∧ @R ℝ (realScalar (1 / 2 ^ 52) 22756) (Cartesian3D.mk 3 4 12)
        * Real.cos (@Theta ℝ (realScalar (1 / 2 ^ 52) 22756) (Cartesian3D.mk 3 4 12)) = 12 := by
  have hrho : 0 < @Rho ℝ (realScalar (1 / 2 ^ 52) 22756) (Cartesian3D.mk 3 4 12) := by
    rw [Rho_real]
    exact Real.sqrt_pos.mpr (by norm_num)
  have h := C6_polar_round_trip (1 / 2 ^ 52) 22756 (Cartesian3D.mk 3 4 12) hrho
  exact ⟨hrho, h.1, h.2.2.1⟩

/-! ## Conversion from the polar representation -/

/-- C8: for every `(x,y,z)`, over every scalar type, `Mag2()` is `x*x + y*y + z*z`,
`Perp2()` is `x*x + y*y`, `R()` is `sqrt(Mag2())` and `Rho()` is `sqrt(Perp2())`; over
the reals `sqrt` is the real square root. -/
theorem C8_magnitudes :
    (∀ (S : Type) [Scalar S] (x y z : S),
        Mag2 (Cartesian3D.mk x y z) = x * x + y * y + z * z
        ∧ Perp2 (Cartesian3D.mk x y z) = x * x + y * y
        ∧ R (Cartesian3D.mk x y z) = Scalar.sqrt (Mag2 (Cartesian3D.mk x y z))
        ∧ Rho (Cartesian3D.mk x y z) = Scalar.sqrt (Perp2 (Cartesian3D.mk x y z)))
    ∧ (∀ eps M x y z : ℝ,
        @Mag2 ℝ (realScalar eps M) (Cartesian3D.mk x y z) = x * x + y * y + z * z
        ∧ @Perp2 ℝ (realScalar eps M) (Cartesian3D.mk x y z) = x * x + y * y
        ∧ @R ℝ (realScalar eps M) (Cartesian3D.mk x y z)
            = Real.sqrt (@Mag2 ℝ (realScalar eps M) (Cartesian3D.mk x y z))
        ∧ @Rho ℝ (realScalar eps M) (Cartesian3D.mk x y z)
            = Real.sqrt (@Perp2 ℝ (realScalar eps M) (Cartesian3D.mk x y z))) :=
  ⟨fun _ _ _ _ _ => ⟨rfl, rfl, rfl, rfl⟩, fun _ _ _ _ _ => ⟨rfl, rfl, rfl, rfl⟩⟩

/-! ## The transverse plane -/

/-- C9: for every vector in the transverse plane (`z = 0`, `(x,y)` not `(0,0)`),
`Eta()` is `0` and `Theta()` is `pi/2`; for `(3,4,0)`: `Rho()` is `5`, `R()` is `5`,
`Theta()` is `atan2(5,0)`, which is `pi/2`, `Phi()` is `atan2(4,3)` and `Eta()` is `0`.
Here `eps` is a machine epsilon: `0 < eps`. -/
theorem C9_transverse_plane (eps M : ℝ) (h0 : 0 < eps) :
    (∀ x y : ℝ, ¬ (x = 0 ∧ y = 0) →
        @Eta ℝ (realScalar eps M) (Cartesian3D.mk x y 0) = 0
        ∧ @Theta ℝ (realScalar eps M) (Cartesian3D.mk x y 0) = Real.pi / 2)
    ∧ @Rho ℝ (realScalar eps M) (Cartesian3D.mk 3 4 0) = 5
    ∧ @R ℝ (realScalar eps M) (Cartesian3D.mk 3 4 0) = 5
    ∧ @Theta ℝ (realScalar eps M) (Cartesian3D.mk 3 4 0)
        = @Scalar.atan2 ℝ (realScalar eps M) 5 0
    ∧ @Scalar.atan2 ℝ (realScalar eps M) 5 0 = Real.pi / 2
    ∧ @Phi ℝ (realScalar eps M) (Cartesian3D.mk 3 4 0)
        = @Scalar.atan2 ℝ (realScalar eps M) 4 3
    ∧ @Eta ℝ (realScalar eps M) (Cartesian3D.mk 3 4 0) = 0 := by
  have hplane : ∀ x y : ℝ, ¬ (x = 0 ∧ y = 0) →
      @Eta ℝ (realScalar eps M) (Cartesian3D.mk x y 0) = 0
      ∧ @Theta ℝ (realScalar eps M) (Cartesian3D.mk x y 0) = Real.pi / 2 := by
    intro x y hxy
    have hpos : 0 < x * x + y * y := by
      rcases not_and_or.mp hxy with hx | hy
      · have := mul_self_pos.mpr hx
        have := mul_self_nonneg y
        linarith
      · have := mul_self_pos.mpr hy
        have := mul_self_nonneg x
        linarith
    have hrho : 0 < @Rho ℝ (realScalar eps M) (Cartesian3D.mk x y 0) := by
      rw [Rho_real]
      exact Real.sqrt_pos.mpr hpos
    constructor
    · have hst : |(Cartesian3D.mk x y (0 : ℝ)).fZ
          / @Rho ℝ (realScalar eps M) (Cartesian3D.mk x y 0)| < eps ^ (-0.6 : ℝ) := by
        show |(0 : ℝ) / _| < _
        rw [zero_div, abs_zero]
        exact Real.rpow_pos_of_pos h0 _
      rw [Eta_real, if_pos hrho, if_pos hst]
      show Real.log ((0 : ℝ) / _ + Real.sqrt ((0 : ℝ) / _ * ((0 : ℝ) / _) + 1)) = 0
      simp
    · rw [Theta_real, if_neg (fun h => hxy ⟨h.1, h.2.1⟩)]
      exact Complex.arg_eq_pi_div_two_iff.mpr ⟨rfl, Real.sqrt_pos.mpr hpos⟩
  have h25 : Real.sqrt ((3 : ℝ) * 3 + 4 * 4) = 5 := by
    rw [show ((3 : ℝ) * 3 + 4 * 4) = 5 * 5 by norm_num]
    exact Real.sqrt_mul_self (by norm_num)
  have h34 : ¬ ((3 : ℝ) = 0 ∧ (4 : ℝ) = 0) := by norm_num
  have hRho : @Rho ℝ (realScalar eps M) (Cartesian3D.mk 3 4 0) = 5 := by
    rw [Rho_real]
    exact h25
  have hTheta := (hplane 3 4 h34).2
  refine ⟨hplane, hRho, ?_, ?_, ?_, ?_, (hplane 3 4 h34).1⟩
  · rw [R_real]
    show Real.sqrt ((3 : ℝ) * 3 + 4 * 4 + 0 * 0) = 5
    rw [mul_zero, add_zero]
    exact h25
  · rw [Theta_real, if_neg (fun h => h34 ⟨h.1, h.2.1⟩)]
    show Complex.arg ⟨0, Real.sqrt ((3 : ℝ) * 3 + 4 * 4)⟩ = Complex.arg ⟨0, 5⟩
    rw [h25]
  · exact Complex.arg_eq_pi_div_two_iff.mpr ⟨rfl, by norm_num⟩
  · rw [Phi_real, if_neg h34]
    rfl

/-- C9 at the vector `(1,1,0)` with `eps = 2^(-52)`. -/
theorem C9_transverse_plane_witness :
    @Eta ℝ (realScalar (1 / 2 ^ 52) 22756) (Cartesian3D.mk 1 1 0) = 0
    ∧ @Theta ℝ (realScalar (1 / 2 ^ 52) 22756) (Cartesian3D.mk 1 1 0) = Real.pi / 2 :=
  (C9_transverse_plane (1 / 2 ^ 52) 22756 (by norm_num)).1 1 1 (by norm_num)

/-! ## Totality of the arithmetic -/

/-- In exact real arithmetic, for a machine epsilon `eps > 0`, evaluating `Rho()`, `R()`
and `Eta()` with the domains of `sqrt`, `log` and `/` checked never fails and returns the
value of the unchecked accessor. -/
theorem arithmetic_total_exact (eps M : ℝ) (h0 : 0 < eps) (v : Cartesian3D ℝ) :
    @RhoChecked ℝ (realScalar eps M) v = some (@Rho ℝ (realScalar eps M) v)
    ∧ @RChecked ℝ (realScalar eps M) v = some (@R ℝ (realScalar eps M) v)
    ∧ @EtaChecked ℝ (realScalar eps M) v = some (@Eta ℝ (realScalar eps M) v) := by
  have hRho : @RhoChecked ℝ (realScalar eps M) v = some (@Rho ℝ (realScalar eps M) v) :=
    sqrtChecked_real eps M _ (add_nonneg (mul_self_nonneg v.fX) (mul_self_nonneg v.fY))
  have hR : @RChecked ℝ (realScalar eps M) v = some (@R ℝ (realScalar eps M) v) :=
    sqrtChecked_real eps M _ (add_nonneg (add_nonneg (mul_self_nonneg v.fX) (mul_self_nonneg v.fY))
      (mul_self_nonneg v.fZ))
  refine ⟨hRho, hR, ?_⟩
  rw [EtaChecked_real, hRho, Option.some_bind, Eta_real]
  by_cases hrho : 0 < @Rho ℝ (realScalar eps M) v
  · rw [if_pos hrho, if_pos hrho, divChecked_real eps M _ _ hrho, Option.some_bind]
    set t := v.fZ / @Rho ℝ (realScalar eps M) v with ht
    have hbig : 0 < eps ^ (-0.6 : ℝ) := Real.rpow_pos_of_pos h0 _
    by_cases hst : |t| < eps ^ (-0.6 : ℝ)
    · rw [if_pos hst, if_pos hst,
        sqrtChecked_real eps M _ (add_nonneg (mul_self_nonneg t) zero_le_one), Option.some_bind]
      refine logChecked_real eps M _ ?_
      have h1 : |t| < Real.sqrt (t * t + 1) := by
        apply Real.lt_sqrt_of_sq_lt
        rw [sq_abs]; nlinarith
      have := neg_abs_le t
      linarith
    · rw [if_neg hst, if_neg hst]
      by_cases hz : 0 < v.fZ
      · rw [if_pos hz, if_pos hz]
        exact logChecked_real eps M _ (by have := div_pos hz hrho; linarith)
      · rw [if_neg hz, if_neg hz]
        have hz0 : v.fZ ≠ 0 := by
          intro h
          apply hst
          rw [ht, h, zero_div, abs_zero]
          exact hbig
        have hzneg : v.fZ < 0 := lt_of_le_of_ne (not_lt.mp hz) hz0
        have htneg : t < 0 := div_neg_of_neg_of_pos hzneg hrho
        rw [logChecked_real eps M _ (by linarith), Option.some_bind]
  · rw [if_neg hrho, if_neg hrho]
    split_ifs <;> rfl

/-! ## Equality -/

theorem operator_eq_iff {S : Type} [Scalar S] (a b : Cartesian3D S) :
    operator_eq a b = true ↔ a.fX = b.fX ∧ a.fY = b.fY ∧ a.fZ = b.fZ := by
  unfold operator_eq
  rw [Bool.and_eq_true, Bool.and_eq_true, decide_eq_true_eq, decide_eq_true_eq,
    decide_eq_true_eq, and_assoc]

/-- C11: equality is exact, reflexive and symmetric.  For all vectors `a` and `b`, over
every scalar type, `a == b` is true if and only if all three components are equal,
`a == a` is true, `(a == b) = (b == a)`, and `a != b` is the negation of `a == b`; over
the reals `(1,2,3) == (1,2,3)` is true and `(1,2,3) == (1,2,3.0000001)` is false. -/
theorem C11_equality_exact :
    (∀ (S : Type) [Scalar S] (a b : Cartesian3D S),
        (operator_eq a b = true ↔ a.fX = b.fX ∧ a.fY = b.fY ∧ a.fZ = b.fZ)
        ∧ operator_eq a a = true
        ∧ operator_eq a b = operator_eq b a
        ∧ operator_ne a b = !(operator_eq a b))
    ∧ (∀ eps M : ℝ,
        @operator_eq ℝ (realScalar eps M) (Cartesian3D.mk 1 2 3) (Cartesian3D.mk 1 2 3) = true
        ∧ @operator_eq ℝ (realScalar eps M) (Cartesian3D.mk 1 2 3)
            (Cartesian3D.mk 1 2 3.0000001) = false) := by
  refine ⟨fun S _ a b => ⟨operator_eq_iff a b, (operator_eq_iff a a).mpr ⟨rfl, rfl, rfl⟩,
    ?_, rfl⟩, fun eps M => ⟨?_, ?_⟩⟩
  · rw [Bool.eq_iff_iff, operator_eq_iff, operator_eq_iff]
    exact ⟨fun h => ⟨h.1.symm, h.2.1.symm, h.2.2.symm⟩,
      fun h => ⟨h.1.symm, h.2.1.symm, h.2.2.symm⟩⟩
  · exact (@operator_eq_iff ℝ (realScalar eps M) _ _).mpr ⟨rfl, rfl, rfl⟩
  · rw [Bool.eq_false_iff]
    intro h
    have h3 := ((@operator_eq_iff ℝ (realScalar eps M) _ _).mp h).2.2
    have h3' : (3 : ℝ) = 3.0000001 := h3
    norm_num at h3'

/-! ## Scaling, negation and the component setters -/

/-- C12: `Scale(a)` multiplies each of the three components by `a`, over every scalar
type; over the reals, for every vector and every `a` other than `0`, `Scale(a)` followed
by `Scale(1/a)` returns the original components, and for every vector `Negate()`
applied twice returns exactly the original components. -/
theorem C12_Scale_Negate :
    (∀ (S : Type) [Scalar S] (x y z a : S),
        Scale (Cartesian3D.mk x y z) a = Cartesian3D.mk (x * a) (y * a) (z * a))
    ∧ (∀ (eps M : ℝ) (v : Cartesian3D ℝ) (a : ℝ), a ≠ 0 →
        @Scale ℝ (realScalar eps M) (@Scale ℝ (realScalar eps M) v a) (1 / a) = v)
    ∧ (∀ (eps M : ℝ) (v : Cartesian3D ℝ),
        @Negate ℝ (realScalar eps M) (@Negate ℝ (realScalar eps M) v) = v) := by
  refine ⟨fun S _ x y z a => rfl, fun eps M v a ha => ?_, fun eps M v => ?_⟩
  · obtain ⟨x, y, z⟩ := v
    show Cartesian3D.mk (x * a * (1 / a)) (y * a * (1 / a)) (z * a * (1 / a)) = _
    rw [mul_assoc, mul_assoc, mul_assoc, mul_one_div_cancel ha, mul_one, mul_one, mul_one]
  · obtain ⟨x, y, z⟩ := v
    show Cartesian3D.mk (- -x) (- -y) (- -z) = _
    rw [neg_neg, neg_neg, neg_neg]

/-- C12 at the vector `(3,4,12)` scaled by `7` and then by `1/7`. -/
theorem C12_Scale_Negate_witness :
    @Scale ℝ (realScalar (1 / 2 ^ 52) 22756)
        (@Scale ℝ (realScalar (1 / 2 ^ 52) 22756) (Cartesian3D.mk 3 4 12) 7) (1 / 7)
      = Cartesian3D.mk 3 4 12 :=
  C12_Scale_Negate.2.1 (1 / 2 ^ 52) 22756 (Cartesian3D.mk 3 4 12) 7 (by norm_num)

/-- C13: each component setter changes exactly one field.  For every vector `(x,y,z)`
and value `v`, over every scalar type, `SetX(v)` yields `(v,y,z)`, `SetY(v)` yields
`(x,v,z)` and `SetZ(v)` yields `(x,y,v)`. -/
theorem C13_component_setters (S : Type) [Scalar S] (x y z v : S) :
    SetX (Cartesian3D.mk x y z) v = Cartesian3D.mk v y z
    ∧ SetY (Cartesian3D.mk x y z) v = Cartesian3D.mk x v z
    ∧ SetZ (Cartesian3D.mk x y z) v = Cartesian3D.mk x y v :=
  ⟨rfl, rfl, rfl⟩

/-! ## Setters of derived coordinates -/

/-- C14: each derived-coordinate setter (`SetR`, `SetTheta`, `SetPhi`, `SetRho`,
`SetEta`), for every argument, signals one fault, the `GenVector_exception` whose message
names the operation as not supposed to be called, and afterwards the vector is the
result of converting it to the alternative representation (`Polar3D` for R, Theta, Phi;
`CylindricalEta3D` for Rho, Eta), applying the same setter there, and converting back
to Cartesian. -/
theorem C14_derived_setters (S : Type) [Scalar S] (P C : Type) (pol : Polar3DClass P S)
    (cyl : CylindricalEta3DClass C S) (self : Cartesian3D S) (a : S) :
    SetR pol self a
        = ([⟨"Cartesian3D::SetR() is not supposed to be called"⟩],
            ofPolar3D ScalarConversion.same pol.toPolar3DAccessors
              (pol.SetR (pol.ofCartesian3D self) a))
    ∧ SetTheta pol self a
        = ([⟨"Cartesian3D::SetTheta() is not supposed to be called"⟩],
            ofPolar3D ScalarConversion.same pol.toPolar3DAccessors
              (pol.SetTheta (pol.ofCartesian3D self) a))
    ∧ SetPhi pol self a
        = ([⟨"Cartesian3D::SetPhi() is not supposed to be called"⟩],
            ofPolar3D ScalarConversion.same pol.toPolar3DAccessors
              (pol.SetPhi (pol.ofCartesian3D self) a))
    ∧ SetRho cyl self a
        = ([⟨"Cartesian3D::SetRho() is not supposed to be called"⟩],
            ofCoordSystem ScalarConversion.same cyl.toCoordSystem
              (cyl.SetRho (cyl.ofCartesian3D self) a))
    ∧ SetEta cyl self a
        = ([⟨"Cartesian3D::SetEta() is not supposed to be called"⟩],
            ofCoordSystem ScalarConversion.same cyl.toCoordSystem
              (cyl.SetEta (cyl.ofCartesian3D self) a)) :=
  ⟨rfl, rfl, rfl, rfl, rfl⟩

/-! ## The threshold of `Eta()` by scalar type -/

theorem truncRat_exponent : truncRat (-0.6) = 0 := by
  unfold truncRat
  rw [if_neg (by norm_num)]
  rw [Int.ceil_eq_iff]
  constructor <;> norm_num

theorem truncRat_two : truncRat 2.0 = 2 := by
  unfold truncRat
  rw [if_pos (by norm_num)]
  rw [Int.floor_eq_iff]
  constructor <;> norm_num

theorem truncReal_intCast (n : ℤ) : truncReal (n : ℝ) = n := by
  unfold truncReal
  split_ifs
  · exact Int.floor_intCast n
  · exact Int.ceil_intCast n

theorem threshold_int (M : ℤ) :
    @Scalar.pow ℤ (intScalar M) (@Scalar.epsilon ℤ (intScalar M))
      (@Scalar.cast ℤ (intScalar M) (-0.6)) = 1 := by
  show truncReal (((0 : ℤ) : ℝ) ^ ((truncRat (-0.6) : ℤ) : ℝ)) = 1
  rw [truncRat_exponent, Int.cast_zero, Real.rpow_zero]
  exact_mod_cast truncReal_intCast 1

theorem Eta_int (M : ℤ) (v : Cartesian3D ℤ) :
    @Eta ℤ (intScalar M) v =
      if 0 < @Rho ℤ (intScalar M) v then
        if |Int.tdiv v.fZ (@Rho ℤ (intScalar M) v)| < 1 then
          @Scalar.log ℤ (intScalar M) (Int.tdiv v.fZ (@Rho ℤ (intScalar M) v)
            + @Scalar.sqrt ℤ (intScalar M) (Int.tdiv v.fZ (@Rho ℤ (intScalar M) v)
                * Int.tdiv v.fZ (@Rho ℤ (intScalar M) v) + 1))
        else if 0 < v.fZ then
          @Scalar.log ℤ (intScalar M) (2 * Int.tdiv v.fZ (@Rho ℤ (intScalar M) v))
        else -@Scalar.log ℤ (intScalar M) (-2 * Int.tdiv v.fZ (@Rho ℤ (intScalar M) v))
      else if v.fZ = 0 then 0
      else if 0 < v.fZ then v.fZ + M else v.fZ - M := by
  have raw : @Eta ℤ (intScalar M) v =
      if 0 < @Rho ℤ (intScalar M) v then
        if |Int.tdiv v.fZ (@Rho ℤ (intScalar M) v)|
            < @Scalar.pow ℤ (intScalar M) (@Scalar.epsilon ℤ (intScalar M))
                (@Scalar.cast ℤ (intScalar M) (-0.6)) then
          @Scalar.log ℤ (intScalar M) (Int.tdiv v.fZ (@Rho ℤ (intScalar M) v)
            + @Scalar.sqrt ℤ (intScalar M) (Int.tdiv v.fZ (@Rho ℤ (intScalar M) v)
                * Int.tdiv v.fZ (@Rho ℤ (intScalar M) v) + 1))
        else if 0 < v.fZ then
          @Scalar.log ℤ (intScalar M) (truncRat 2.0 * Int.tdiv v.fZ (@Rho ℤ (intScalar M) v))
        else -@Scalar.log ℤ (intScalar M)
          (-truncRat 2.0 * Int.tdiv v.fZ (@Rho ℤ (intScalar M) v))
      else if v.fZ = 0 then 0
      else if 0 < v.fZ then v.fZ + M else v.fZ - M := rfl
  rw [raw, threshold_int, truncRat_two]

theorem Rho_int_105 (M : ℤ) : @Rho ℤ (intScalar M) (Cartesian3D.mk 1 0 5) = 1 := by
  show truncReal (Real.sqrt (((1 * 1 + 0 * 0 : ℤ)) : ℝ)) = 1
  norm_num
  exact_mod_cast truncReal_intCast 1

/-- C15, refuted as stated: for an integer scalar type the exponent `-0.6` is changed by
its conversion to `Scalar` (it becomes `0`), the threshold computed is `1` and not
`eps^(-0.6)` (which is `+∞` for `eps = 0`), and the integer vector `(1,0,5)`, with
`rho = 1 > 0` and `|z/rho| = 5` below `eps^(-0.6)`, fails the code's test for the stable
branch: `Eta()` returns the asymptotic value `log(2*5)`. -/
theorem C15_threshold_counterexample :
    @Scalar.cast ℤ (intScalar 22756) (-0.6) = 0
    ∧ ((@Scalar.cast ℤ (intScalar 22756) (-0.6) : ℤ) : ℚ) ≠ -0.6
    ∧ @Scalar.epsilon ℤ (intScalar 22756) = 0
    ∧ @Scalar.pow ℤ (intScalar 22756) (@Scalar.epsilon ℤ (intScalar 22756))
        (@Scalar.cast ℤ (intScalar 22756) (-0.6)) = 1
    ∧ (((1 : ℤ) : ℝ) : EReal)
        ≠ documentedThreshold ((@Scalar.epsilon ℤ (intScalar 22756) : ℤ) : ℝ)
    ∧ 0 < @Rho ℤ (intScalar 22756) (Cartesian3D.mk 1 0 5)
    ∧ (((|Int.tdiv 5 (@Rho ℤ (intScalar 22756) (Cartesian3D.mk 1 0 5))| : ℤ) : ℝ) : EReal)
        < documentedThreshold ((@Scalar.epsilon ℤ (intScalar 22756) : ℤ) : ℝ)
    ∧ ¬ (@Scalar.fabs ℤ (intScalar 22756)
          (Int.tdiv 5 (@Rho ℤ (intScalar 22756) (Cartesian3D.mk 1 0 5)))
        < @Scalar.pow ℤ (intScalar 22756) (@Scalar.epsilon ℤ (intScalar 22756))
            (@Scalar.cast ℤ (intScalar 22756) (-0.6)))
    ∧ @Eta ℤ (intScalar 22756) (Cartesian3D.mk 1 0 5)
        = @Scalar.log ℤ (intScalar 22756) (2 * 5) := by
  have hdoc : documentedThreshold ((@Scalar.epsilon ℤ (intScalar 22756) : ℤ) : ℝ) = ⊤ := by
    show documentedThreshold (((0 : ℤ)) : ℝ) = ⊤
    unfold documentedThreshold
    rw [if_pos Int.cast_zero]
  have hrho := Rho_int_105 22756
  have h5 : Int.tdiv 5 1 = 5 := by decide
  refine ⟨truncRat_exponent, ?_, rfl, threshold_int 22756, ?_, ?_, ?_, ?_, ?_⟩
  · show ((truncRat (-0.6) : ℤ) : ℚ) ≠ -0.6
    rw [truncRat_exponent]
    norm_num
  · rw [hdoc]
    exact EReal.coe_ne_top _
  · rw [hrho]
    decide
  · rw [hdoc]
    exact EReal.coe_lt_top _
  · rw [threshold_int, hrho, h5]
    show ¬ (|(5 : ℤ)| < 1)
    decide
  · rw [Eta_int, hrho, h5, if_pos (by decide), if_neg (by decide), if_pos (by decide)]

/-- C15, amended: the threshold of `Eta()` is `pow(eps, static_cast<Scalar>(-0.6))`.  Over
the reals this is `eps^(-0.6)`.  For an integer scalar type the conversion truncates the
exponent to `0` and `eps` is `0`, so the threshold is `1`: `Eta()` on integer components
selects the stable branch for exactly the vectors with `rho > 0` and `|z/rho| < 1`, with
`z/rho` the integer quotient. -/
theorem C15_threshold_by_scalar_type :
    (∀ eps M : ℝ,
        @Scalar.pow ℝ (realScalar eps M) (@Scalar.epsilon ℝ (realScalar eps M))
          (@Scalar.cast ℝ (realScalar eps M) (-0.6)) = eps ^ (-0.6 : ℝ))
    ∧ (∀ M : ℤ,
        @Scalar.cast ℤ (intScalar M) (-0.6) = 0
        ∧ @Scalar.epsilon ℤ (intScalar M) = 0
        ∧ @Scalar.pow ℤ (intScalar M) (@Scalar.epsilon ℤ (intScalar M))
            (@Scalar.cast ℤ (intScalar M) (-0.6)) = 1)
    ∧ (∀ (M : ℤ) (v : Cartesian3D ℤ),
        @Eta ℤ (intScalar M) v =
          if 0 < @Rho ℤ (intScalar M) v then
            if |Int.tdiv v.fZ (@Rho ℤ (intScalar M) v)| < 1 then
              @Scalar.log ℤ (intScalar M) (Int.tdiv v.fZ (@Rho ℤ (intScalar M) v)
                + @Scalar.sqrt ℤ (intScalar M) (Int.tdiv v.fZ (@Rho ℤ (intScalar M) v)
                    * Int.tdiv v.fZ (@Rho ℤ (intScalar M) v) + 1))
            else if 0 < v.fZ then
              @Scalar.log ℤ (intScalar M) (2 * Int.tdiv v.fZ (@Rho ℤ (intScalar M) v))
            else -@Scalar.log ℤ (intScalar M) (-2 * Int.tdiv v.fZ (@Rho ℤ (intScalar M) v))
          else if v.fZ = 0 then 0
          else if 0 < v.fZ then v.fZ + M else v.fZ - M) := by
  refine ⟨fun eps M => ?_, fun M => ⟨truncRat_exponent, rfl, threshold_int M⟩,
    fun M v => Eta_int M v⟩
  show eps ^ (((-0.6 : ℚ)) : ℝ) = _
  rw [cast_exponent_real]

/-! ## Symmetry, sign and ranges -/

theorem stable_arg_pos (t : ℝ) : 0 < t + Real.sqrt (t * t + 1) := by
  have h1 : |t| < Real.sqrt (t * t + 1) := by
    apply Real.lt_sqrt_of_sq_lt
    rw [sq_abs]; nlinarith
  have := neg_abs_le t
  linarith

theorem log_stable_neg (t : ℝ) :
    Real.log (-t + Real.sqrt (-t * -t + 1)) = -Real.log (t + Real.sqrt (t * t + 1)) := by
  have hs : Real.sqrt (t * t + 1) * Real.sqrt (t * t + 1) = t * t + 1 :=
    Real.mul_self_sqrt (by nlinarith [mul_self_nonneg t])
  have hpos := stable_arg_pos t
  have hinv : -t + Real.sqrt (t * t + 1) = (t + Real.sqrt (t * t + 1))⁻¹ := by
    apply eq_inv_of_mul_eq_one_left
    nlinarith
  rw [neg_mul_neg, hinv, Real.log_inv]

theorem Rho_Negate_real (eps M : ℝ) (v : Cartesian3D ℝ) :
    @Rho ℝ (realScalar eps M) (@Negate ℝ (realScalar eps M) v)
      = @Rho ℝ (realScalar eps M) v := by
  rw [Rho_real, Rho_real]
  show Real.sqrt (-v.fX * -v.fX + -v.fY * -v.fY) = _
  rw [neg_mul_neg, neg_mul_neg]

/-- In exact real arithmetic, for a machine epsilon `eps > 0`, `Eta()` is odd under
`Negate()` in all branches. -/
theorem Eta_odd_exact (eps M : ℝ) (h0 : 0 < eps) (v : Cartesian3D ℝ) :
    @Eta ℝ (realScalar eps M) (@Negate ℝ (realScalar eps M) v)
      = -@Eta ℝ (realScalar eps M) v := by
  have hbig : 0 < eps ^ (-0.6 : ℝ) := Real.rpow_pos_of_pos h0 _
  have hz : (@Negate ℝ (realScalar eps M) v).fZ = -v.fZ := rfl
  rw [Eta_real, Eta_real, Rho_Negate_real, hz]
  by_cases hrho : 0 < @Rho ℝ (realScalar eps M) v
  · rw [if_pos hrho, if_pos hrho, neg_div, abs_neg]
    set t := v.fZ / @Rho ℝ (realScalar eps M) v with ht
    by_cases hst : |t| < eps ^ (-0.6 : ℝ)
    · rw [if_pos hst, if_pos hst]
      exact log_stable_neg t
    · rw [if_neg hst, if_neg hst]
      have ht0 : t ≠ 0 := by
        intro h
        apply hst
        rw [h, abs_zero]
        exact hbig
      have hz0 : v.fZ ≠ 0 := by
        intro h
        apply ht0
        rw [ht, h, zero_div]
      rcases lt_or_gt_of_ne hz0 with hneg | hpos
      · rw [if_pos (by linarith : 0 < -v.fZ), if_neg (by linarith : ¬ 0 < v.fZ), neg_neg]
        congr 1
        ring
      · rw [if_neg (by linarith : ¬ 0 < -v.fZ), if_pos hpos]
        congr 2
        ring
  · rw [if_neg hrho, if_neg hrho]
    rcases lt_trichotomy v.fZ 0 with hneg | hzero | hpos
    · rw [if_neg (by linarith : ¬ -v.fZ = 0), if_pos (by linarith : 0 < -v.fZ),
        if_neg (by linarith : ¬ v.fZ = 0), if_neg (by linarith : ¬ 0 < v.fZ)]
      ring
    · rw [if_pos (by rw [hzero, neg_zero] : -v.fZ = 0), if_pos hzero, neg_zero]
    · rw [if_neg (by linarith : ¬ -v.fZ = 0), if_neg (by linarith : ¬ 0 < -v.fZ),
        if_neg (by linarith : ¬ v.fZ = 0), if_pos hpos]
      ring

/-- C18: accessor ranges.  For every vector `(x,y,z)`: `0 <= Rho() <= R()`, `Theta()`
lies in the closed interval `[0, pi]`, and `Phi()` lies in the interval `(-pi, pi]`. -/
theorem C18_accessor_ranges (eps M : ℝ) (v : Cartesian3D ℝ) :
    0 ≤ @Rho ℝ (realScalar eps M) v
    ∧ @Rho ℝ (realScalar eps M) v ≤ @R ℝ (realScalar eps M) v
    ∧ 0 ≤ @Theta ℝ (realScalar eps M) v
    ∧ @Theta ℝ (realScalar eps M) v ≤ Real.pi
    ∧ -Real.pi < @Phi ℝ (realScalar eps M) v
    ∧ @Phi ℝ (realScalar eps M) v ≤ Real.pi := by
  refine ⟨?_, ?_, ?_, ?_, ?_, ?_⟩
  · rw [Rho_real]
    exact Real.sqrt_nonneg _
  · rw [Rho_real, R_real]
    exact Real.sqrt_le_sqrt (le_add_of_nonneg_right (mul_self_nonneg v.fZ))
  · rw [Theta_real]
    split_ifs
    · exact le_refl 0
    · exact Complex.arg_nonneg_iff.mpr (Real.sqrt_nonneg _)
  · rw [Theta_real]
    split_ifs
    · exact Real.pi_pos.le
    · exact Complex.arg_le_pi _
  · rw [Phi_real]
    split_ifs
    · linarith [Real.pi_pos]
    · exact Complex.neg_pi_lt_arg _
  · rw [Phi_real]
    split_ifs
    · exact Real.pi_pos.le
    · exact Complex.arg_le_pi _

/-! ## Binary64 arithmetic -/

theorem roundHalfEven_intCast (n : ℤ) : roundHalfEven (n : ℝ) = n := by
  unfold roundHalfEven
  rw [Int.floor_intCast, sub_self, if_pos (by norm_num)]

theorem floor_le_roundHalfEven (r : ℝ) : ⌊r⌋ ≤ roundHalfEven r := by
  unfold roundHalfEven
  split_ifs <;> omega

theorem roundHalfEven_le (r : ℝ) : roundHalfEven r ≤ ⌊r⌋ + 1 := by
  unfold roundHalfEven
  split_ifs <;> omega

theorem roundHalfEven_of_lt_half (r : ℝ) (n : ℤ) (h1 : (n : ℝ) ≤ r) (h2 : r < n + 1 / 2) :
    roundHalfEven r = n := by
  have hf : ⌊r⌋ = n := by
    rw [Int.floor_eq_iff]
    exact ⟨h1, by linarith⟩
  unfold roundHalfEven
  rw [hf, if_pos (by linarith)]

theorem log_two_eq (x : ℝ) (e : ℤ) (h1 : (2 : ℝ) ^ e ≤ x) (h2 : x < (2 : ℝ) ^ (e + 1)) :
    Int.log 2 x = e := by
  have hx : 0 < x := lt_of_lt_of_le (zpow_pos (by norm_num) e) h1
  apply le_antisymm
  · have := (Int.lt_zpow_iff_log_lt (b := 2) (by norm_num) hx).mp (by exact_mod_cast h2)
    omega
  · exact (Int.zpow_le_iff_le_log (b := 2) (by norm_num) hx).mp (by exact_mod_cast h1)

theorem two_pow_52_mul (e : ℤ) : ((2 ^ 52 : ℤ) : ℝ) * 2 ^ (e - 52) = 2 ^ e := by
  have h : ((2 ^ 52 : ℤ) : ℝ) = (2 : ℝ) ^ (52 : ℤ) := by norm_num
  rw [h, ← zpow_add₀ (by norm_num)]
  congr 1
  ring

theorem roundBinary64_zero : roundBinary64 0 = 0 := if_pos rfl

theorem roundBinary64_eq (x : ℝ) (e : ℤ) (h1 : (2 : ℝ) ^ e ≤ |x|)
    (h2 : |x| < (2 : ℝ) ^ (e + 1)) :
    roundBinary64 x = roundHalfEven (x / 2 ^ (e - 52)) * 2 ^ (e - 52) := by
  have hx : x ≠ 0 := by
    intro h
    rw [h, abs_zero] at h1
    exact absurd h1 (not_le.mpr (zpow_pos (by norm_num) e))
  unfold roundBinary64
  rw [if_neg hx, log_two_eq |x| e h1 h2]

theorem roundBinary64_two_zpow (k : ℤ) : roundBinary64 ((2 : ℝ) ^ k) = 2 ^ k := by
  have hpos : (0 : ℝ) < 2 ^ k := zpow_pos (by norm_num) k
  rw [roundBinary64_eq _ k (by rw [abs_of_pos hpos])
    (by rw [abs_of_pos hpos]; exact zpow_lt_zpow_right₀ (by norm_num) (by omega))]
  have h : (2 : ℝ) ^ k / 2 ^ (k - 52) = ((2 ^ 52 : ℤ) : ℝ) := by
    rw [← zpow_sub₀ (by norm_num)]
    norm_num
  rw [h, roundHalfEven_intCast, two_pow_52_mul]

theorem roundBinary64_neg_two_zpow (k : ℤ) : roundBinary64 (-(2 : ℝ) ^ k) = -2 ^ k := by
  have hpos : (0 : ℝ) < 2 ^ k := zpow_pos (by norm_num) k
  rw [roundBinary64_eq _ k (by rw [abs_neg, abs_of_pos hpos])
    (by rw [abs_neg, abs_of_pos hpos]; exact zpow_lt_zpow_right₀ (by norm_num) (by omega))]
  have h : -(2 : ℝ) ^ k / 2 ^ (k - 52) = ((-2 ^ 52 : ℤ) : ℝ) := by
    rw [neg_div, ← zpow_sub₀ (by norm_num)]
    norm_num
  rw [h, roundHalfEven_intCast, Int.cast_neg, neg_mul, two_pow_52_mul]

/-- Rounding never crosses a power of two from above. -/
theorem two_zpow_le_roundBinary64 (x : ℝ) (k : ℤ) (h : (2 : ℝ) ^ k ≤ x) :
    (2 : ℝ) ^ k ≤ roundBinary64 x := by
  have hx : 0 < x := lt_of_lt_of_le (zpow_pos (by norm_num) k) h
  have he1 : (2 : ℝ) ^ Int.log 2 x ≤ x := by
    exact_mod_cast Int.zpow_log_le_self (b := 2) (by norm_num) hx
  have he2 : x < (2 : ℝ) ^ (Int.log 2 x + 1) := by
    exact_mod_cast Int.lt_zpow_succ_log_self (b := 2) (by norm_num) x
  have hk : k ≤ Int.log 2 x :=
    (Int.zpow_le_iff_le_log (b := 2) (by norm_num) hx).mp (by exact_mod_cast h)
  set e := Int.log 2 x with he
  rw [roundBinary64_eq x e (by rw [abs_of_pos hx]; exact he1) (by rw [abs_of_pos hx]; exact he2)]
  have hu : (0 : ℝ) < 2 ^ (e - 52) := zpow_pos (by norm_num) _
  have hq : ((2 ^ 52 : ℤ) : ℝ) ≤ x / 2 ^ (e - 52) := by
    rw [le_div_iff₀ hu, two_pow_52_mul]
    exact he1
  have hfl : (2 ^ 52 : ℤ) ≤ roundHalfEven (x / 2 ^ (e - 52)) :=
    le_trans (Int.le_floor.mpr hq) (floor_le_roundHalfEven _)
  have hfl' : ((2 ^ 52 : ℤ) : ℝ) ≤ (roundHalfEven (x / 2 ^ (e - 52)) : ℝ) := by exact_mod_cast hfl
  calc (2 : ℝ) ^ k ≤ 2 ^ e := zpow_le_zpow_right₀ (by norm_num) hk
    _ = ((2 ^ 52 : ℤ) : ℝ) * 2 ^ (e - 52) := (two_pow_52_mul e).symm
    _ ≤ roundHalfEven (x / 2 ^ (e - 52)) * 2 ^ (e - 52) :=
        mul_le_mul_of_nonneg_right hfl' hu.le

/-- The rounding error is at most one unit in the last place, hence at most `2^(-52) |x|`. -/
theorem roundBinary64_le_add (x : ℝ) : roundBinary64 x ≤ x + |x| * 2 ^ (-52 : ℤ) := by
  by_cases hx : x = 0
  · rw [hx, roundBinary64_zero]; simp
  have hax : 0 < |x| := abs_pos.mpr hx
  have he1 : (2 : ℝ) ^ Int.log 2 |x| ≤ |x| := by
    exact_mod_cast Int.zpow_log_le_self (b := 2) (by norm_num) hax
  unfold roundBinary64
  rw [if_neg hx]
  set e := Int.log 2 |x| with he
  have hu : (0 : ℝ) < 2 ^ (e - 52) := zpow_pos (by norm_num) _
  have h1 : (roundHalfEven (x / 2 ^ (e - 52)) : ℝ) ≤ x / 2 ^ (e - 52) + 1 := by
    have := roundHalfEven_le (x / 2 ^ (e - 52))
    have h2 : (roundHalfEven (x / 2 ^ (e - 52)) : ℝ) ≤ ((⌊x / 2 ^ (e - 52)⌋ + 1 : ℤ) : ℝ) := by
      exact_mod_cast this
    push_cast at h2
    linarith [Int.floor_le (x / 2 ^ (e - 52))]
  have h3 : (2 : ℝ) ^ (e - 52) ≤ |x| * 2 ^ (-52 : ℤ) := by
    rw [show e - 52 = e + (-52) by ring, zpow_add₀ (by norm_num)]
    exact mul_le_mul_of_nonneg_right he1 (zpow_pos (by norm_num) _).le
  calc (roundHalfEven (x / 2 ^ (e - 52)) : ℝ) * 2 ^ (e - 52)
      ≤ (x / 2 ^ (e - 52) + 1) * 2 ^ (e - 52) := mul_le_mul_of_nonneg_right h1 hu.le
    _ = x + 2 ^ (e - 52) := by field_simp
    _ ≤ x + |x| * 2 ^ (-52 : ℤ) := by linarith

theorem roundBinary64_one : roundBinary64 1 = 1 := by
  have h := roundBinary64_two_zpow 0
  rwa [zpow_zero] at h

theorem roundBinary64_two_pow (n : ℕ) : roundBinary64 ((2 : ℝ) ^ n) = 2 ^ n := by
  have h := roundBinary64_two_zpow (n : ℤ)
  rwa [zpow_natCast] at h

theorem roundBinary64_neg_two_pow (n : ℕ) : roundBinary64 (-(2 : ℝ) ^ n) = -2 ^ n := by
  have h := roundBinary64_neg_two_zpow (n : ℤ)
  rwa [zpow_natCast] at h

/-- Adding `1` to `2^54` is absorbed: the spacing of the values at `2^54` is `4`. -/
theorem roundBinary64_two_pow_54_add_one : roundBinary64 ((2 : ℝ) ^ 54 + 1) = 2 ^ 54 := by
  rw [roundBinary64_eq _ 54 (by rw [abs_of_pos (by positivity)]; norm_num)
    (by rw [abs_of_pos (by positivity)]; norm_num)]
  have hq : roundHalfEven (((2 : ℝ) ^ 54 + 1) / 2 ^ ((54 : ℤ) - 52)) = 2 ^ 52 :=
    roundHalfEven_of_lt_half _ _ (by norm_num) (by norm_num)
  rw [hq]
  norm_num

/-- The threshold of `Eta()` computed in binary64 is at least `2^29`. -/
theorem threshold_binary64_ge :
    (2 : ℝ) ^ 29 ≤ roundBinary64 (((2 : ℝ) ^ (-52 : ℤ)) ^ roundBinary64 (((-0.6 : ℚ)) : ℝ)) := by
  have hc : roundBinary64 (((-0.6 : ℚ)) : ℝ) ≤ -(9 / 16) := by
    have h := roundBinary64_le_add (((-0.6 : ℚ)) : ℝ)
    rw [cast_exponent_real] at h ⊢
    have h2 : |(-0.6 : ℝ)| * 2 ^ (-52 : ℤ) ≤ 0.0375 := by
      rw [abs_of_neg (by norm_num)]
      norm_num
    linarith
  have hy : (2 : ℝ) ^ (29 : ℤ)
      ≤ ((2 : ℝ) ^ (-52 : ℤ)) ^ roundBinary64 (((-0.6 : ℚ)) : ℝ) := by
    rw [← Real.rpow_intCast, ← Real.rpow_intCast, ← Real.rpow_mul (by norm_num)]
    apply Real.rpow_le_rpow_of_exponent_le (by norm_num)
    push_cast
    linarith
  have h := two_zpow_le_roundBinary64 _ 29 hy
  have e : (2 : ℝ) ^ (29 : ℤ) = 2 ^ 29 := by norm_num
  rwa [e] at h

theorem sqrtChecked_binary64 (M x : ℝ) (hx : 0 ≤ x) :
    @sqrtChecked ℝ (binary64Scalar M) x = some (roundBinary64 (Real.sqrt x)) :=
  if_neg (not_lt.mpr hx)

theorem logChecked_binary64 (M x : ℝ) (hx : 0 < x) :
    @logChecked ℝ (binary64Scalar M) x = some (roundBinary64 (Real.log x)) :=
  if_pos hx

theorem logChecked_binary64_zero (M : ℝ) : @logChecked ℝ (binary64Scalar M) 0 = none :=
  if_neg (lt_irrefl 0)

theorem divChecked_binary64 (M a b : ℝ) (hb : 0 < b) :
    @divChecked ℝ (binary64Scalar M) a b = some (roundBinary64 (a / b)) :=
  if_pos hb

theorem Rho_binary64 (M : ℝ) (v : Cartesian3D ℝ) :
    @Rho ℝ (binary64Scalar M) v
      = roundBinary64 (Real.sqrt (roundBinary64
          (roundBinary64 (v.fX * v.fX) + roundBinary64 (v.fY * v.fY)))) := rfl

theorem RhoChecked_binary64 (M : ℝ) (v : Cartesian3D ℝ) :
    @RhoChecked ℝ (binary64Scalar M) v
      = @sqrtChecked ℝ (binary64Scalar M)
          (roundBinary64 (roundBinary64 (v.fX * v.fX) + roundBinary64 (v.fY * v.fY))) := rfl

theorem Eta_binary64 (M : ℝ) (v : Cartesian3D ℝ) :
    @Eta ℝ (binary64Scalar M) v =
      if 0 < @Rho ℝ (binary64Scalar M) v then
        if |roundBinary64 (v.fZ / @Rho ℝ (binary64Scalar M) v)|
            < roundBinary64 (((2 : ℝ) ^ (-52 : ℤ)) ^ roundBinary64 (((-0.6 : ℚ)) : ℝ)) then
          roundBinary64 (Real.log (roundBinary64
            (roundBinary64 (v.fZ / @Rho ℝ (binary64Scalar M) v)
              + roundBinary64 (Real.sqrt (roundBinary64
                  (roundBinary64 (roundBinary64 (v.fZ / @Rho ℝ (binary64Scalar M) v)
                    * roundBinary64 (v.fZ / @Rho ℝ (binary64Scalar M) v)) + 1))))))
        else if 0 < v.fZ then
          roundBinary64 (Real.log (roundBinary64 (roundBinary64 (((2.0 : ℚ)) : ℝ)
            * roundBinary64 (v.fZ / @Rho ℝ (binary64Scalar M) v))))
        else -roundBinary64 (Real.log (roundBinary64 (-roundBinary64 (((2.0 : ℚ)) : ℝ)
            * roundBinary64 (v.fZ / @Rho ℝ (binary64Scalar M) v))))
      else if v.fZ = 0 then 0
      else if 0 < v.fZ then roundBinary64 (v.fZ + M) else roundBinary64 (v.fZ - M) := rfl

theorem EtaChecked_binary64 (M : ℝ) (v : Cartesian3D ℝ) :
    @EtaChecked ℝ (binary64Scalar M) v =
      (@RhoChecked ℝ (binary64Scalar M) v).bind fun rho =>
        if 0 < rho then
          (@divChecked ℝ (binary64Scalar M) v.fZ rho).bind fun z_scaled =>
            if |z_scaled|
                < roundBinary64 (((2 : ℝ) ^ (-52 : ℤ)) ^ roundBinary64 (((-0.6 : ℚ)) : ℝ)) then
              (@sqrtChecked ℝ (binary64Scalar M)
                  (roundBinary64 (roundBinary64 (z_scaled * z_scaled) + 1))).bind fun s =>
                @logChecked ℝ (binary64Scalar M) (roundBinary64 (z_scaled + s))
            else if 0 < v.fZ then
              @logChecked ℝ (binary64Scalar M)
                (roundBinary64 (roundBinary64 (((2.0 : ℚ)) : ℝ) * z_scaled))
            else (@logChecked ℝ (binary64Scalar M)
                (roundBinary64 (-roundBinary64 (((2.0 : ℚ)) : ℝ) * z_scaled))).bind
                  fun l => some (-l)
        else if v.fZ = 0 then some 0
        else if 0 < v.fZ then some (roundBinary64 (v.fZ + M))
        else some (roundBinary64 (v.fZ - M)) := rfl

/-- In binary64, `Rho()` of `(x,0,z)` with `x` either `1` or `-1` is `1`. -/
theorem Rho_binary64_unit (M x z : ℝ) (hx : x * x = 1) :
    @Rho ℝ (binary64Scalar M) (Cartesian3D.mk x 0 z) = 1 := by
  rw [Rho_binary64]
  show roundBinary64 (Real.sqrt (roundBinary64
    (roundBinary64 (x * x) + roundBinary64 (0 * 0)))) = 1
  rw [hx, mul_zero, roundBinary64_zero, roundBinary64_one, add_zero, roundBinary64_one,
    Real.sqrt_one, roundBinary64_one]

theorem RhoChecked_binary64_unit (M x z : ℝ) (hx : x * x = 1) :
    @RhoChecked ℝ (binary64Scalar M) (Cartesian3D.mk x 0 z) = some 1 := by
  rw [RhoChecked_binary64]
  show @sqrtChecked ℝ (binary64Scalar M)
    (roundBinary64 (roundBinary64 (x * x) + roundBinary64 (0 * 0))) = some 1
  rw [hx, mul_zero, roundBinary64_zero, roundBinary64_one, add_zero, roundBinary64_one,
    sqrtChecked_binary64 M 1 zero_le_one, Real.sqrt_one, roundBinary64_one]

theorem sqrt_two_pow_54 : Real.sqrt ((2 : ℝ) ^ 54) = 2 ^ 27 := by
  rw [show ((2 : ℝ) ^ 54) = 2 ^ 27 * 2 ^ 27 by norm_num]
  exact Real.sqrt_mul_self (by positivity)

/-- In binary64 the stable branch of `Eta()` at `(x,0,-2^27)`, `x` either `1` or `-1`,
calls `std::log` on exactly `0`. -/
theorem EtaChecked_binary64_neg (M x : ℝ) (hx : x * x = 1) :
    @EtaChecked ℝ (binary64Scalar M) (Cartesian3D.mk x 0 (-2 ^ 27)) = none := by
  have habs : |(-(2 : ℝ) ^ 27)|
      < roundBinary64 (((2 : ℝ) ^ (-52 : ℤ)) ^ roundBinary64 (((-0.6 : ℚ)) : ℝ)) := by
    rw [abs_neg, abs_of_pos (by positivity)]
    exact lt_of_lt_of_le (by norm_num) threshold_binary64_ge
  rw [EtaChecked_binary64, RhoChecked_binary64_unit M x _ hx, Option.some_bind,
    if_pos zero_lt_one, divChecked_binary64 M _ _ zero_lt_one, Option.some_bind, div_one,
    roundBinary64_neg_two_pow, if_pos habs]
  rw [show (-(2 : ℝ) ^ 27 * -2 ^ 27) = 2 ^ 54 by norm_num, roundBinary64_two_pow,
    roundBinary64_two_pow_54_add_one, sqrtChecked_binary64 M _ (by positivity),
    Option.some_bind, sqrt_two_pow_54, roundBinary64_two_pow, neg_add_cancel,
    roundBinary64_zero]
  exact logChecked_binary64_zero M


theorem Eta_binary64_neg (M x : ℝ) (hx : x * x = 1) :
    @Eta ℝ (binary64Scalar M) (Cartesian3D.mk x 0 (-2 ^ 27)) = roundBinary64 (Real.log 0) := by
  have habs : |(-(2 : ℝ) ^ 27)|
      < roundBinary64 (((2 : ℝ) ^ (-52 : ℤ)) ^ roundBinary64 (((-0.6 : ℚ)) : ℝ)) := by
    rw [abs_neg, abs_of_pos (by positivity)]
    exact lt_of_lt_of_le (by norm_num) threshold_binary64_ge
  rw [Eta_binary64, Rho_binary64_unit M x _ hx, if_pos zero_lt_one, div_one,
    roundBinary64_neg_two_pow, if_pos habs]
  rw [show (-(2 : ℝ) ^ 27 * -2 ^ 27) = 2 ^ 54 by norm_num, roundBinary64_two_pow,
    roundBinary64_two_pow_54_add_one, sqrt_two_pow_54, roundBinary64_two_pow, neg_add_cancel,
    roundBinary64_zero]

theorem Eta_binary64_pos (M : ℝ) :
    @Eta ℝ (binary64Scalar M) (Cartesian3D.mk 1 0 (2 ^ 27))
      = roundBinary64 (Real.log (2 ^ 28)) := by
  have habs : |((2 : ℝ) ^ 27)|
      < roundBinary64 (((2 : ℝ) ^ (-52 : ℤ)) ^ roundBinary64 (((-0.6 : ℚ)) : ℝ)) := by
    rw [abs_of_pos (by positivity)]
    exact lt_of_lt_of_le (by norm_num) threshold_binary64_ge
  rw [Eta_binary64, Rho_binary64_unit M 1 _ (one_mul 1), if_pos zero_lt_one, div_one,
    roundBinary64_two_pow, if_pos habs]
  rw [show ((2 : ℝ) ^ 27 * 2 ^ 27) = 2 ^ 54 by norm_num, roundBinary64_two_pow,
    roundBinary64_two_pow_54_add_one, sqrt_two_pow_54, roundBinary64_two_pow,
    show ((2 : ℝ) ^ 27 + 2 ^ 27) = 2 ^ 28 by norm_num, roundBinary64_two_pow]

theorem EtaChecked_binary64_pos (M : ℝ) :
    @EtaChecked ℝ (binary64Scalar M) (Cartesian3D.mk 1 0 (2 ^ 27))
      = some (roundBinary64 (Real.log (2 ^ 28))) := by
  have habs : |((2 : ℝ) ^ 27)|
      < roundBinary64 (((2 : ℝ) ^ (-52 : ℤ)) ^ roundBinary64 (((-0.6 : ℚ)) : ℝ)) := by
    rw [abs_of_pos (by positivity)]
    exact lt_of_lt_of_le (by norm_num) threshold_binary64_ge
  rw [EtaChecked_binary64, RhoChecked_binary64_unit M 1 _ (one_mul 1), Option.some_bind,
    if_pos zero_lt_one, divChecked_binary64 M _ _ zero_lt_one, Option.some_bind, div_one,
    roundBinary64_two_pow, if_pos habs]
  rw [show ((2 : ℝ) ^ 27 * 2 ^ 27) = 2 ^ 54 by norm_num, roundBinary64_two_pow,
    roundBinary64_two_pow_54_add_one, sqrtChecked_binary64 M _ (by positivity),
    Option.some_bind, sqrt_two_pow_54, roundBinary64_two_pow,
    show ((2 : ℝ) ^ 27 + 2 ^ 27) = 2 ^ 28 by norm_num, roundBinary64_two_pow]
  exact logChecked_binary64 M _ (by positivity)

theorem one_le_log_two_pow_28 : (1 : ℝ) ≤ Real.log (2 ^ 28) := by
  rw [Real.log_pow]
  have := Real.log_two_gt_d9
  push_cast
  linarith

/-- C3, failing input: in binary64 the vector `(1,0,-2^27)` has `Rho() = 1 > 0` and
`|z/rho| = 2^27` below the threshold, so it is in the stable branch, where
`z_scaled*z_scaled + 1` rounds to `2^54`, its square root is `2^27`, and `Eta()` is
`std::log` of `-2^27 + 2^27 = 0`, not the finite `-ln(tan(Theta()/2))`. -/
theorem C3_Eta_stable_branch_log_zero :
    @Rho ℝ (binary64Scalar 22756) (Cartesian3D.mk 1 0 (-2 ^ 27)) = 1
    ∧ @Scalar.fabs ℝ (binary64Scalar 22756)
          (roundBinary64 (-2 ^ 27 / @Rho ℝ (binary64Scalar 22756) (Cartesian3D.mk 1 0 (-2 ^ 27))))
        < @Scalar.pow ℝ (binary64Scalar 22756) (@Scalar.epsilon ℝ (binary64Scalar 22756))
            (@Scalar.cast ℝ (binary64Scalar 22756) (-0.6))
    ∧ roundBinary64 (-2 ^ 27 + roundBinary64 (Real.sqrt
          (roundBinary64 (roundBinary64 (-2 ^ 27 * -2 ^ 27) + 1)))) = 0
    ∧ @Eta ℝ (binary64Scalar 22756) (Cartesian3D.mk 1 0 (-2 ^ 27))
        = @Scalar.log ℝ (binary64Scalar 22756) 0 := by
  have hrho := Rho_binary64_unit 22756 1 (-2 ^ 27) (one_mul 1)
  refine ⟨hrho, ?_, ?_, Eta_binary64_neg 22756 1 (one_mul 1)⟩
  · rw [hrho, div_one, roundBinary64_neg_two_pow]
    show |(-(2 : ℝ) ^ 27)|
      < roundBinary64 (((2 : ℝ) ^ (-52 : ℤ)) ^ roundBinary64 (((-0.6 : ℚ)) : ℝ))
    rw [abs_neg, abs_of_pos (by positivity)]
    exact lt_of_lt_of_le (by norm_num) threshold_binary64_ge
  · rw [show (-(2 : ℝ) ^ 27 * -2 ^ 27) = 2 ^ 54 by norm_num, roundBinary64_two_pow,
      roundBinary64_two_pow_54_add_one, sqrt_two_pow_54, roundBinary64_two_pow,
      neg_add_cancel, roundBinary64_zero]

/-- C10, failing input: in binary64, evaluating `Eta()` of `(1,0,-2^27)` with the domains
checked fails: `Rho()` is `1`, the division and the square root are defined, and the
stable branch calls `std::log` on an argument that is exactly `0`. -/
theorem C10_log_argument_zero :
    @RhoChecked ℝ (binary64Scalar 22756) (Cartesian3D.mk 1 0 (-2 ^ 27)) = some 1
    ∧ @logChecked ℝ (binary64Scalar 22756) 0 = none
    ∧ @EtaChecked ℝ (binary64Scalar 22756) (Cartesian3D.mk 1 0 (-2 ^ 27)) = none :=
  ⟨RhoChecked_binary64_unit 22756 1 _ (one_mul 1), logChecked_binary64_zero 22756,
    EtaChecked_binary64_neg 22756 1 (one_mul 1)⟩

/-- C16, failing input: in binary64 `Eta()` of `(1,0,2^27)` is the rounded `ln(2^28)`, a
value of at least `1`, while after `Negate()` the vector is `(-1,0,-2^27)` and `Eta()`
is `std::log` of exactly `0`, which has no value: `Eta()` is not odd there. -/
theorem C16_Eta_not_odd_binary64 :
    @EtaChecked ℝ (binary64Scalar 22756) (Cartesian3D.mk 1 0 (2 ^ 27))
        = some (@Eta ℝ (binary64Scalar 22756) (Cartesian3D.mk 1 0 (2 ^ 27)))
    ∧ 1 ≤ @Eta ℝ (binary64Scalar 22756) (Cartesian3D.mk 1 0 (2 ^ 27))
    ∧ @Negate ℝ (binary64Scalar 22756) (Cartesian3D.mk 1 0 (2 ^ 27))
        = Cartesian3D.mk (-1) 0 (-2 ^ 27)
    ∧ @EtaChecked ℝ (binary64Scalar 22756)
        (@Negate ℝ (binary64Scalar 22756) (Cartesian3D.mk 1 0 (2 ^ 27))) = none
    ∧ @Eta ℝ (binary64Scalar 22756)
        (@Negate ℝ (binary64Scalar 22756) (Cartesian3D.mk 1 0 (2 ^ 27)))
        = @Scalar.log ℝ (binary64Scalar 22756) 0 := by
  have hneg : @Negate ℝ (binary64Scalar 22756) (Cartesian3D.mk 1 0 (2 ^ 27))
      = Cartesian3D.mk (-1) 0 (-2 ^ 27) := by
    show Cartesian3D.mk (-1 : ℝ) (-0) (-2 ^ 27) = _
    rw [neg_zero]
  have hone : (-1 : ℝ) * -1 = 1 := by norm_num
  refine ⟨?_, ?_, hneg, ?_, ?_⟩
  · rw [EtaChecked_binary64_pos, Eta_binary64_pos]
  · rw [Eta_binary64_pos]
    have h := two_zpow_le_roundBinary64 (Real.log (2 ^ 28)) 0
      (by rw [zpow_zero]; exact one_le_log_two_pow_28)
    rwa [zpow_zero] at h
  · rw [hneg]
    exact EtaChecked_binary64_neg 22756 (-1) hone
  · rw [hneg]
    exact Eta_binary64_neg 22756 (-1) hone


theorem truncReal_nonneg (x : ℝ) (hx : 0 ≤ x) : 0 ≤ truncReal x := by
  unfold truncReal
  rw [if_pos hx]
  exact Int.floor_nonneg.mpr hx

theorem Rho_int_nonneg (M : ℤ) (v : Cartesian3D ℤ) : 0 ≤ @Rho ℤ (intScalar M) v :=
  truncReal_nonneg _ (Real.sqrt_nonneg _)

end GenVector

/-! # The y-axis limits of RooPlotable -/

namespace RooPlotable

variable {α : Type} [LinearOrder α]

theorem updateYAxisLimits_ymax (p : RooPlotable α) (y : α) :
    (updateYAxisLimits p y)._ymax = max p._ymax y := by
  unfold updateYAxisLimits
  by_cases h1 : y > p._ymax
  · rw [if_pos h1, max_eq_right (le_of_lt h1)]
    dsimp only
    split_ifs <;> rfl
  · rw [if_neg h1, max_eq_left (not_lt.mp h1)]
    dsimp only
    split_ifs <;> rfl

theorem updateYAxisLimits_ymin (p : RooPlotable α) (y : α) :
    (updateYAxisLimits p y)._ymin = min p._ymin y := by
  unfold updateYAxisLimits
  have hp1 : (if y > p._ymax then { p with _ymax := y } else p)._ymin = p._ymin := by
    split_ifs <;> rfl
  by_cases h2 : y < p._ymin
  · rw [if_pos (by rw [hp1]; exact h2), min_eq_right (le_of_lt h2)]
  · rw [if_neg (by rw [hp1]; exact h2), min_eq_left (not_lt.mp h2), hp1]

theorem updateYAxisLimits_of_mem_range (p : RooPlotable α) (y : α) (hlo : p._ymin ≤ y)
    (hhi : y ≤ p._ymax) : updateYAxisLimits p y = p := by
  unfold updateYAxisLimits
  rw [if_neg (not_lt.mpr hhi), if_neg (not_lt.mpr hlo)]

theorem updateAll_ymax (ys : List α) (p : RooPlotable α) :
    (updateAll p ys)._ymax = ys.foldl max p._ymax := by
  induction ys generalizing p with
  | nil => rfl
  | cons y ys ih =>
    show (updateAll (updateYAxisLimits p y) ys)._ymax = _
    rw [ih, updateYAxisLimits_ymax]
    rfl

theorem updateAll_ymin (ys : List α) (p : RooPlotable α) :
    (updateAll p ys)._ymin = ys.foldl min p._ymin := by
  induction ys generalizing p with
  | nil => rfl
  | cons y ys ih =>
    show (updateAll (updateYAxisLimits p y) ys)._ymin = _
    rw [ih, updateYAxisLimits_ymin]
    rfl

theorem le_foldl_max (ys : List α) (a : α) :
    a ≤ ys.foldl max a ∧ ∀ y ∈ ys, y ≤ ys.foldl max a := by
  induction ys generalizing a with
  | nil => exact ⟨le_refl a, fun y hy => absurd hy (List.not_mem_nil y)⟩
  | cons x xs ih =>
    obtain ⟨h1, h2⟩ := ih (max a x)
    refine ⟨le_trans (le_max_left a x) h1, fun y hy => ?_⟩
    rcases List.mem_cons.mp hy with rfl | hy
    · exact le_trans (le_max_right a y) h1
    · exact h2 y hy

theorem foldl_min_le (ys : List α) (a : α) :
    ys.foldl min a ≤ a ∧ ∀ y ∈ ys, ys.foldl min a ≤ y := by
  induction ys generalizing a with
  | nil => exact ⟨le_refl a, fun y hy => absurd hy (List.not_mem_nil y)⟩
  | cons x xs ih =>
    obtain ⟨h1, h2⟩ := ih (min a x)
    refine ⟨le_trans h1 (min_le_left a x), fun y hy => ?_⟩
    rcases List.mem_cons.mp hy with rfl | hy
    · exact le_trans h1 (min_le_right a y)
    · exact h2 y hy

/-- C19: the y-axis limits bracket zero and every value seen.  Starting from a
default-constructed `RooPlotable` and after `updateYAxisLimits(y_1)`, ...,
`updateYAxisLimits(y_n)`, `getYAxisMax()` is `max(0, y_1, ..., y_n)` and `getYAxisMin()`
is `min(0, y_1, ..., y_n)`; hence `getYAxisMin() <= 0 <= getYAxisMax()`,
`getYAxisMin() <= y_i <= getYAxisMax()` for every `i`, and a further update with a value
already seen (or with `0`) changes nothing. -/
theorem C19_yAxisLimits (α : Type) [LinearOrder α] [Zero α] (ys : List α) :
    getYAxisMax (updateAll (new : RooPlotable α) ys) = ys.foldl max 0
    ∧ getYAxisMin (updateAll (new : RooPlotable α) ys) = ys.foldl min 0
    ∧ getYAxisMin (updateAll (new : RooPlotable α) ys) ≤ 0
    ∧ 0 ≤ getYAxisMax (updateAll (new : RooPlotable α) ys)
    ∧ (∀ y ∈ ys, getYAxisMin (updateAll (new : RooPlotable α) ys) ≤ y
        ∧ y ≤ getYAxisMax (updateAll (new : RooPlotable α) ys))
    ∧ (∀ y ∈ ys, updateYAxisLimits (updateAll (new : RooPlotable α) ys) y
        = updateAll (new : RooPlotable α) ys)
    ∧ updateYAxisLimits (updateAll (new : RooPlotable α) ys) 0
        = updateAll (new : RooPlotable α) ys := by
  have hmax : getYAxisMax (updateAll (new : RooPlotable α) ys) = ys.foldl max 0 :=
    updateAll_ymax ys new
  have hmin : getYAxisMin (updateAll (new : RooPlotable α) ys) = ys.foldl min 0 :=
    updateAll_ymin ys new
  obtain ⟨hM0, hMy⟩ := le_foldl_max ys (0 : α)
  obtain ⟨hm0, hmy⟩ := foldl_min_le ys (0 : α)
  rw [← hmax] at hM0 hMy
  rw [← hmin] at hm0 hmy
  exact ⟨hmax, hmin, hm0, hM0, fun y hy => ⟨hmy y hy, hMy y hy⟩,
    fun y hy => updateYAxisLimits_of_mem_range _ y (hmy y hy) (hMy y hy),
    updateYAxisLimits_of_mem_range _ 0 hm0 hM0⟩

/-- C19 for the updates `3`, `-2`, `5` of integer limits: the value `3` is bracketed and
a further update with `3` changes nothing. -/
theorem C19_yAxisLimits_witness :
    (getYAxisMin (updateAll (new : RooPlotable ℤ) [3, -2, 5]) ≤ 3
        ∧ 3 ≤ getYAxisMax (updateAll (new : RooPlotable ℤ) [3, -2, 5]))
    ∧ updateYAxisLimits (updateAll (new : RooPlotable ℤ) [3, -2, 5]) 3
        = updateAll (new : RooPlotable ℤ) [3, -2, 5] :=
  ⟨(C19_yAxisLimits ℤ [3, -2, 5]).2.2.2.2.1 3 (by decide),
   (C19_yAxisLimits ℤ [3, -2, 5]).2.2.2.2.2.1 3 (by decide)⟩


end RooPlotable
